import Mathlib

/-!
Verification development for the C++ code-analysis engine of this repository
(the `UnrealCodeAnalyzer` class): parse/extract pipeline, bounded FIFO caching,
batched file scanning, hierarchy resolution, reference/text search, pattern
detection and the API-reference synthesizer.

The engine is shallowly embedded: JavaScript strings, arrays and `Map`s become
`String`, `List` and association lists; `async` methods that may `throw` become
functions into `Except AError`; the mutable analyzer object becomes an explicit
`AnalyzerState` threaded through the operations.  The external collaborators
(the tree-sitter C++ grammar, the structural-query engine, `glob`, the file
system and JavaScript's `RegExp`) are modelled from the spec, as marked on the
corresponding definitions.
-/

set_option maxHeartbeats 1000000
set_option maxRecDepth 10000

/-! ## JavaScript string primitives (ASCII-faithful models) -/

/-- First index (if any) at which `pat` occurs as a contiguous sublist of `l`
(JavaScript `String.prototype.indexOf`). -/
def idxOfC (pat : List Char) : List Char → Option Nat
  | [] => if pat.isEmpty then some 0 else none
  | c :: rest => if pat.isPrefixOf (c :: rest) then some 0 else (idxOfC pat rest).map (· + 1)

/-- Containment of `pat` as a contiguous sublist of `l`
(JavaScript `String.prototype.includes`). -/
def containsC (pat : List Char) : List Char → Bool
  | [] => pat.isEmpty
  | c :: rest => pat.isPrefixOf (c :: rest) || containsC pat rest

/-- JavaScript `s.includes(sub)`. -/
def strIncludes (s sub : String) : Bool := containsC sub.data s.data

/-- JavaScript `s.indexOf(sub)`, as an `Option` (`none` for `-1`). -/
def strIdxOf (s sub : String) : Option Nat := idxOfC sub.data s.data

/-- JavaScript `s.startsWith(p)`. -/
def strStartsWith (s p : String) : Bool := p.data.isPrefixOf s.data

/-- JavaScript `s.endsWith(p)`. -/
def strEndsWith (s p : String) : Bool := p.data.isSuffixOf s.data

/-- JavaScript `s.toLowerCase()` (ASCII-faithful). -/
def strLower (s : String) : String := ⟨s.data.map Char.toLower⟩

/-- JavaScript `s.trim()`. -/
def strTrim (s : String) : String :=
  ⟨((s.data.dropWhile Char.isWhitespace).reverse.dropWhile Char.isWhitespace).reverse⟩

/-- Split a character list at every occurrence of `sep`
(JavaScript `s.split(sep)` for a single-character separator; always returns at
least one, possibly empty, segment). -/
def splitC (sep : Char) : List Char → List (List Char)
  | [] => [[]]
  | c :: rest =>
    match splitC sep rest with
    | [] => [[]]
    | seg :: segs => if c == sep then [] :: seg :: segs else (c :: seg) :: segs

/-- JavaScript `s.split('\n')`. -/
def splitLines (s : String) : List String := (splitC '\n' s.data).map (⟨·⟩)

/-- Replace every maximal whitespace run by the single character `repl`
(JavaScript `s.replace(/\s+/g, repl)` for a one-character replacement). -/
def collapseWs (repl : Char) : List Char → List Char
  | [] => []
  | c :: rest =>
    if c.isWhitespace then
      match rest with
      | [] => [repl]
      | d :: _ =>
        if d.isWhitespace then collapseWs repl rest else repl :: collapseWs repl rest
    else c :: collapseWs repl rest

/-- Modelled from the spec: JavaScript `s.split(/\s+/)` (the query tokenizer of
the API synthesizer "tokenizes the query on whitespace").  Maximal whitespace
runs separate the tokens; a leading or trailing run contributes an empty
token, exactly as in JavaScript. -/
def splitWsJS (s : String) : List String :=
  (splitC (Char.ofNat 0) (collapseWs (Char.ofNat 0) s.data)).map (⟨·⟩)

/-- JavaScript `Array.prototype.join(sep)`. -/
def joinSep (sep : String) : List String → String
  | [] => ""
  | [x] => x
  | x :: y :: rest => x ++ sep ++ joinSep sep (y :: rest)

/-- JavaScript `s.replace(new RegExp(tag + "\\s*"), '')`: remove the first
occurrence of `tag` together with the whitespace run following it. -/
def stripTag (tag s : String) : String :=
  match idxOfC tag.data s.data with
  | none => s
  | some i => ⟨s.data.take i ++ (s.data.drop (i + tag.data.length)).dropWhile Char.isWhitespace⟩

/-- JavaScript `s.replace(/\/\*|\*\/|\*|\s+/g, ' ')`, the comment-marker
stripper of `extractDescription`: each `/*`, `*/`, `*` and each maximal
whitespace run becomes a single space (alternatives tried in source order at
each position, as the regex engine does). -/
def descClean : List Char → List Char
  | [] => []
  | '/' :: '*' :: rest => ' ' :: descClean rest
  | '*' :: '/' :: rest => ' ' :: descClean rest
  | '*' :: rest => ' ' :: descClean rest
  | c :: rest =>
    if c.isWhitespace then
      match rest with
      | [] => [' ']
      | d :: _ => if d.isWhitespace then descClean rest else ' ' :: descClean rest
    else c :: descClean rest

/-- Node `path.join(a, b)` for the simple relative segments this engine uses. -/
def pathJoin (a b : String) : String := a ++ "/" ++ b

/-- Occurrence scanner for the hand-modelled pattern regexes: at each position
of the subject, try to match the literal `pat` and hand the remainder to
`after`. -/
def scanFor (pat : List Char) (after : List Char → Bool) : List Char → Bool
  | [] => pat.isEmpty && after []
  | c :: rest => (pat.isPrefixOf (c :: rest) && after ((c :: rest).drop pat.length)) || scanFor pat after rest

/-! ## Syntax trees (modelled from the spec)

The spec treats the C++ grammar and query engine as an external capability:
"parse source text of a given language into a tree of typed nodes with
position information, and run structural queries that bind named captures to
matching subtrees".  `SNode` is that tree of typed nodes; `descendantsOfType`
is the tree-sitter API of the same name (document order, the node itself
included). -/

inductive SNode where
  | mk (ty : String) (text : String) (row : Nat) (col : Nat) (children : List SNode)

def SNode.ty : SNode → String
  | .mk t _ _ _ _ => t

def SNode.text : SNode → String
  | .mk _ t _ _ _ => t

def SNode.row : SNode → Nat
  | .mk _ _ r _ _ => r

def SNode.col : SNode → Nat
  | .mk _ _ _ c _ => c

def SNode.children : SNode → List SNode
  | .mk _ _ _ _ cs => cs

mutual

def descendantsOfType (t : String) : SNode → List SNode
  | .mk ty tx r c cs =>
    (if ty == t then [SNode.mk ty tx r c cs] else []) ++ descendantsOfTypeL t cs

def descendantsOfTypeL (t : String) : List SNode → List SNode
  | [] => []
  | n :: ns => descendantsOfType t n ++ descendantsOfTypeL t ns

end

/-- Modelled from the spec: `tree.rootNode.hasError()` reports a structural
parse error, i.e. an `ERROR` node somewhere in the tree. -/
def SNode.hasError (n : SNode) : Bool := !(descendantsOfType "ERROR" n).isEmpty

/-! ## Data model (§3 of the spec, the interfaces of the source) -/

inductive Visibility where
  | pub
  | prot
  | priv
deriving DecidableEq, Repr

structure ParameterInfo where
  name : String
  type : String
  defaultValue : Option String := none
deriving DecidableEq, Repr

structure MethodInfo where
  name : String
  returnType : String
  parameters : List ParameterInfo
  isVirtual : Bool
  isOverride : Bool
  visibility : Visibility
  comments : List String
  line : Nat
deriving DecidableEq, Repr

structure PropertyInfo where
  name : String
  type : String
  visibility : Visibility
  comments : List String
  line : Nat
deriving DecidableEq, Repr

structure ClassInfo where
  name : String
  file : String
  line : Nat
  superclasses : List String
  interfaces : List String
  methods : List MethodInfo
  properties : List PropertyInfo
  comments : List String
deriving DecidableEq, Repr

structure CodeReference where
  file : String
  line : Nat
  column : Nat
  context : String
deriving DecidableEq, Repr

inductive ClassHierarchy where
  | mk (className : String) (superclasses : List ClassHierarchy) (interfaces : List String)

def ClassHierarchy.className : ClassHierarchy → String
  | .mk n _ _ => n

def ClassHierarchy.superclasses : ClassHierarchy → List ClassHierarchy
  | .mk _ s _ => s

def ClassHierarchy.interfaces : ClassHierarchy → List String
  | .mk _ _ i => i

structure SubsystemInfo where
  name : String
  mainClasses : List String
  keyFeatures : List String
  dependencies : List String
  sourceFiles : List String
deriving DecidableEq, Repr

structure PatternInfo where
  name : String
  description : String
  bestPractices : List String
  documentation : String
  examples : List String
  relatedPatterns : List String
deriving DecidableEq, Repr

structure LearningResource where
  title : String
  rtype : String
  url : String
  description : String
deriving DecidableEq, Repr

structure ApiReference where
  className : String
  description : String
  signature : String
  examples : List String
  remarks : List String
  relatedClasses : List String
  category : String
  module : String
  version : String
deriving DecidableEq, Repr

structure ApiQueryResult where
  reference : ApiReference
  context : String
  relevance : Nat
  learningResources : List LearningResource
deriving DecidableEq, Repr

structure CodePatternMatch where
  pattern : PatternInfo
  file : String
  line : Nat
  context : String
  suggestedImprovements : List String
  learningResources : List LearningResource
deriving DecidableEq, Repr

structure ApiQueryOptions where
  category : Option String := none
  module : Option String := none
  includeExamples : Option Bool := none
  maxResults : Option Nat := none
deriving DecidableEq, Repr

/-! ## Errors

One constructor per `throw new Error(...)` site of the analyzer, plus the
external read failure and a fuel marker for the (unguarded) hierarchy
recursion. `AError.message` restates the exact source message. -/

inductive AError where
  | notInitialized
  | noSearchPath
  | noValidPath
  | enginePathNotConfigured
  | invalidEnginePath
  | engineDirMissing
  | invalidCustomPath
  | classNotFound (className : String)
  | unknownSubsystem (name : String)
  | subsystemDirNotFound (path : String)
  | ioError (path : String)
  | fuelExhausted
deriving DecidableEq, Repr

def AError.message : AError → String
  | .notInitialized => "Analyzer not initialized"
  | .noSearchPath => "No valid search path configured"
  | .noValidPath => "No valid path configured"
  | .enginePathNotConfigured => "Unreal Engine path not configured"
  | .invalidEnginePath => "Invalid Unreal Engine path: Directory does not exist"
  | .engineDirMissing => "Invalid Unreal Engine path: Engine directory not found"
  | .invalidCustomPath => "Invalid custom codebase path: Directory does not exist"
  | .classNotFound c => "Class not found: " ++ c
  | .unknownSubsystem n => "Unknown subsystem: " ++ n
  | .subsystemDirNotFound p => "Subsystem directory not found: " ++ p
  | .ioError p => "ENOENT: no such file or directory, open " ++ p
  | .fuelExhausted => "recursion fuel exhausted"

def Except.isErr {ε α : Type} : Except ε α → Bool
  | .error _ => true
  | .ok _ => false

/-! ## External world: file system, glob, parser (modelled from the spec) -/

/-- Modelled from the spec: the file system as a set of directories, a set of
enumerable file paths, and the readable contents.  A path may be enumerable
yet unreadable (`readFileSync` raising an I/O error inside a batch). -/
structure FileSystem where
  dirs : List String
  entries : List String
  contents : List (String × String)

/-- Association-list model of a JavaScript `Map`: first binding wins on reads,
`set` updates in place or appends, `delete` removes the single binding. -/
def mapGet {K V : Type} [DecidableEq K] (m : List (K × V)) (k : K) : Option V :=
  match m with
  | [] => none
  | (k', v) :: rest => if k' = k then some v else mapGet rest k

def mapSet {K V : Type} [DecidableEq K] (m : List (K × V)) (k : K) (v : V) : List (K × V) :=
  match m with
  | [] => [(k, v)]
  | (k', v') :: rest => if k' = k then (k, v) :: rest else (k', v') :: mapSet rest k v

def mapDelete {K V : Type} [DecidableEq K] (m : List (K × V)) (k : K) : List (K × V) :=
  match m with
  | [] => []
  | (k', v') :: rest => if k' = k then rest else (k', v') :: mapDelete rest k

def dirExists (fs : FileSystem) (p : String) : Bool := fs.dirs.contains p

/-- `fs.readFileSync(p, 'utf8')`: the contents, or the external I/O error. -/
def readFile (fs : FileSystem) (p : String) : Except AError String :=
  match mapGet fs.contents p with
  | some c => .ok c
  | none => .error (.ioError p)

/-- Modelled from the spec: `glob.sync(pattern, \x7b cwd, absolute: true \x7d)`
"enumerates files matching a glob pattern under a root".  The engine only ever
uses the patterns `**/*.h` and `**/<filePattern>` with extension alternation,
so the model filters the enumerable paths under `cwd` by extension. -/
def globSync (pat cwd : String) (fs : FileSystem) : List String :=
  fs.entries.filter (fun p =>
    strStartsWith p (cwd ++ "/") &&
      (if strIncludes pat "\x7bh,cpp\x7d" then strEndsWith p ".h" || strEndsWith p ".cpp"
       else if strIncludes pat ".h" then strEndsWith p ".h"
       else true))

/-- The environment a method call runs against: the file system and the
external tree-sitter C++ parser (a total function from source text to a
syntax tree, modelled from the spec). -/
structure Env where
  fs : FileSystem
  parse : String → SNode

/-! ## Structural queries (modelled from the spec) -/

inductive Query where
  | classQ
  | funcQ
  | nodeQ (nodeType : String)
  | eqQ (nodeType : String) (ident : String)
  | unknownQ (src : String)
deriving DecidableEq, Repr

def CLASS_PATTERN : String :=
  "(class_specifier name: (type_identifier) @class_name body: (field_declaration_list) @class_body) @class"

def FUNCTION_PATTERN : String :=
  "(function_definition declarator: (function_declarator) @func)"

def TYPE_IDENTIFIER_PATTERN : String := "(type_identifier) @id"

def IDENTIFIER_PATTERN : String := "(identifier) @id"

/-- The dynamic query string of `findReferences`:
`(<nodeType>) @id (#eq? @id "<identifier>")`. -/
def mkEqQueryString (nodeType ident : String) : String :=
  "(" ++ nodeType ++ ") @id (#eq? @id \"" ++ ident ++ "\")"

def strDropEnds (s : String) (pre suf : Nat) : String :=
  ⟨(s.data.drop pre).take (s.data.length - pre - suf)⟩

/-- Modelled from the spec: `parser.createQuery(pattern)` compiles a pattern
string into a structural query.  The engine only compiles its four static
patterns and the two dynamic equality patterns. -/
def createQuery (s : String) : Query :=
  if s = CLASS_PATTERN then .classQ
  else if s = FUNCTION_PATTERN then .funcQ
  else if s = TYPE_IDENTIFIER_PATTERN then .nodeQ "type_identifier"
  else if s = IDENTIFIER_PATTERN then .nodeQ "identifier"
  else if strStartsWith s "(type_identifier) @id (#eq? @id \"" && strEndsWith s "\")" then
    .eqQ "type_identifier" (strDropEnds s ("(type_identifier) @id (#eq? @id \"").length 2)
  else if strStartsWith s "(identifier) @id (#eq? @id \"" && strEndsWith s "\")" then
    .eqQ "identifier" (strDropEnds s ("(identifier) @id (#eq? @id \"").length 2)
  else .unknownQ s

def classNameChild (n : SNode) : Option SNode :=
  n.children.find? (fun c => c.ty == "type_identifier")

def classBodyChild (n : SNode) : Option SNode :=
  n.children.find? (fun c => c.ty == "field_declaration_list")

/-- Modelled from the spec: running the "class" query binds, for every
`class_specifier` with a `type_identifier` name and a
`field_declaration_list` body, the captures `class` (the node) and
`class_name` (the name text). -/
def classMatches (root : SNode) : List (SNode × String) :=
  (descendantsOfType "class_specifier" root).filterMap (fun n =>
    match classNameChild n, classBodyChild n with
    | some nm, some _ => some (n, nm.text)
    | _, _ => none)

/-- Modelled from the spec: `query.matches(tree.rootNode)` for the node-level
queries, returning the capture node of each match. -/
def queryMatchNodes (q : Query) (root : SNode) : List SNode :=
  match q with
  | .classQ => (descendantsOfType "class_specifier" root).filter
      (fun n => (classNameChild n).isSome && (classBodyChild n).isSome)
  | .funcQ => descendantsOfType "function_definition" root
  | .nodeQ t => descendantsOfType t root
  | .eqQ t ident => (descendantsOfType t root).filter (fun n => n.text == ident)
  | .unknownQ _ => []

/-- The `class`/`class_name` captures as used by `parseFile`, executing
whatever query object sits under the `CLASS` cache key. -/
def queryClassCaptures (q : Query) (root : SNode) : List (SNode × String) :=
  match q with
  | .classQ => classMatches root
  | _ => []

/-! ## Analyzer state and cache management -/

structure AnalyzerState where
  unrealPath : Option String
  customPath : Option String
  classCache : List (String × ClassInfo)
  astCache : List (String × SNode)
  queryCache : List (String × Query)
  apiCache : List (String × ApiReference)
  initialized : Bool
  cacheQueue : List String
  parseCount : Nat

def MAX_CACHE_SIZE : Nat := 1000

/-- `manageCache(cache, key, value)`: if the cache already holds at least
`MAX_CACHE_SIZE` entries, shift the oldest key off the insertion-order queue
and (when truthy, i.e. non-empty) delete it from the backing map; then set the
new binding and append its key to the queue. -/
def manageCache {V : Type} (store : List (String × V)) (queue : List String)
    (k : String) (v : V) : List (String × V) × List String :=
  let shifted :=
    if MAX_CACHE_SIZE ≤ store.length then
      match queue with
      | [] => (store, ([] : List String))
      | oldest :: rest => (if oldest = "" then store else mapDelete store oldest, rest)
    else (store, queue)
  (mapSet shifted.1 k v, shifted.2 ++ [k])

/-- `this.classCache.set(className, classInfo)` — a plain `Map.set`, not
routed through `manageCache`. -/
def classCacheInsert (s : AnalyzerState) (name : String) (info : ClassInfo) : AnalyzerState :=
  { s with classCache := mapSet s.classCache name info }

/-- The analyzer as constructed: no paths, empty caches, not initialized, the
four common query patterns pre-compiled into the query cache. -/
def mkAnalyzer : AnalyzerState where
  unrealPath := none
  customPath := none
  classCache := []
  astCache := []
  queryCache :=
    [("CLASS", createQuery CLASS_PATTERN),
     ("FUNCTION", createQuery FUNCTION_PATTERN),
     ("TYPE_IDENTIFIER", createQuery TYPE_IDENTIFIER_PATTERN),
     ("IDENTIFIER", createQuery IDENTIFIER_PATTERN)]
  apiCache := []
  initialized := false
  cacheQueue := []
  parseCount := 0

/-! ## Extraction engine (§4.1) -/

def extractParameterInfo (node : SNode) : Option ParameterInfo :=
  match (descendantsOfType "type_identifier" node).head?, (descendantsOfType "identifier" node).head? with
  | some t, some nm => some { name := nm.text, type := t.text, defaultValue := none }
  | _, _ => none

def extractMethodInfo (node : SNode) : Option MethodInfo :=
  match (descendantsOfType "function_declarator" node).head? with
  | none => none
  | some declarator =>
    some
      { name := match (descendantsOfType "identifier" declarator).head? with
          | some nm => nm.text
          | none => ""
        returnType := match (descendantsOfType "type_identifier" node).head? with
          | some t => t.text
          | none => ""
        parameters := match (descendantsOfType "parameter_list" declarator).head? with
          | some pl => (descendantsOfType "parameter_declaration" pl).filterMap extractParameterInfo
          | none => []
        isVirtual := false
        isOverride := false
        visibility := .pub
        comments := []
        line := node.row + 1 }

def extractPropertyInfo (node : SNode) : Option PropertyInfo :=
  match (descendantsOfType "type_identifier" node).head?, (descendantsOfType "identifier" node).head? with
  | some t, some nm =>
    some { name := nm.text, type := t.text, visibility := .pub, comments := [], line := node.row + 1 }
  | _, _ => none

def extractClassInfo (node : SNode) (filePath : String) : ClassInfo where
  name := match (descendantsOfType "type_identifier" node).head? with
    | some nm => nm.text
    | none => ""
  file := filePath
  line := node.row + 1
  superclasses := match (descendantsOfType "base_class_clause" node).head? with
    | some bc => (descendantsOfType "type_identifier" bc).map (·.text)
    | none => []
  interfaces := []
  methods := match (descendantsOfType "field_declaration_list" node).head? with
    | some body => body.children.filterMap
        (fun c => if c.ty == "function_definition" then extractMethodInfo c else none)
    | none => []
  properties := match (descendantsOfType "field_declaration_list" node).head? with
    | some body => body.children.filterMap
        (fun c => if c.ty == "field_declaration" then extractPropertyInfo c else none)
    | none => []
  comments := []

/-! ## parseFile and the tree cache -/

/-- The match loop of `parseFile`: fetch (or compile and cache) the `CLASS`
query, run it, and for every match with a truthy class name store the
extracted `ClassInfo` in the class cache (plain `Map.set`). -/
def runClassMatches (filePath : String) (tree : SNode) (s : AnalyzerState) : AnalyzerState :=
  let fetched : Query × AnalyzerState :=
    match mapGet s.queryCache "CLASS" with
    | some q => (q, s)
    | none =>
      let q := createQuery CLASS_PATTERN
      (q, { s with queryCache := mapSet s.queryCache "CLASS" q })
  (queryClassCaptures fetched.1 tree).foldl
    (fun st m => if m.2 ≠ "" then classCacheInsert st m.2 (extractClassInfo m.1 filePath) else st)
    fetched.2

/-- Does `parseFile` re-parse `filePath` in state `s`?  Yes exactly when the
tree cache misses or the cached tree reports a structural error. -/
def reparseNeeded (s : AnalyzerState) (filePath : String) : Bool :=
  match mapGet s.astCache filePath with
  | none => true
  | some t => t.hasError

/-- `parseFile(filePath)`: read the file, re-parse (through `manageCache`) iff
the tree cache misses or the cached tree has an error, then run the class
query and fill the class cache.  `parseCount` counts parser invocations. -/
def parseFile (env : Env) (s : AnalyzerState) (filePath : String) :
    Except AError (Unit × AnalyzerState) :=
  match readFile env.fs filePath with
  | .error e => .error e
  | .ok content =>
    match mapGet s.astCache filePath with
    | some t =>
      if t.hasError then
        let nt := env.parse content
        let mc := manageCache s.astCache s.cacheQueue filePath nt
        .ok ((), runClassMatches filePath nt
          { s with astCache := mc.1, cacheQueue := mc.2, parseCount := s.parseCount + 1 })
      else
        .ok ((), runClassMatches filePath t s)
    | none =>
      let nt := env.parse content
      let mc := manageCache s.astCache s.cacheQueue filePath nt
      .ok ((), runClassMatches filePath nt
        { s with astCache := mc.1, cacheQueue := mc.2, parseCount := s.parseCount + 1 })

/-! ## Batching (§4.3)

`Promise.all` over a batch is fail-fast and batches run strictly one after
another; the single-threaded event loop makes the per-file effects of a batch
equivalent to a left-to-right traversal. -/

def chunksAux {α : Type} : Nat → Nat → List α → List (List α)
  | 0, _, _ => []
  | _ + 1, _, [] => []
  | fuel + 1, n, x :: xs => (x :: xs.take (n - 1)) :: chunksAux fuel n (xs.drop (n - 1))

/-- `files.slice(i, i + BATCH_SIZE)` chunking of the scan loops. -/
def chunks {α : Type} (n : Nat) (l : List α) : List (List α) := chunksAux l.length n l

/-- One batch of a stateless scan (`Promise.all(batch.map(f))` followed by
`.flat()`). -/
def batchAll {α β : Type} (f : α → Except AError (List β)) : List α → Except AError (List β)
  | [] => .ok []
  | a :: as =>
    match f a with
    | .error e => .error e
    | .ok rs =>
      match batchAll f as with
      | .error e => .error e
      | .ok rest => .ok (rs ++ rest)

/-- The sequential batch loop of a stateless scan. -/
def runBatches {α β : Type} (f : α → Except AError (List β)) :
    List (List α) → Except AError (List β)
  | [] => .ok []
  | b :: bs =>
    match batchAll f b with
    | .error e => .error e
    | .ok rs =>
      match runBatches f bs with
      | .error e => .error e
      | .ok rest => .ok (rs ++ rest)

/-- One batch of a state-threading scan. -/
def runStateBatch {α β : Type} (f : AnalyzerState → α → Except AError (List β × AnalyzerState)) :
    List α → AnalyzerState → Except AError (List β × AnalyzerState)
  | [], s => .ok ([], s)
  | a :: as, s =>
    match f s a with
    | .error e => .error e
    | .ok (rs, s1) =>
      match runStateBatch f as s1 with
      | .error e => .error e
      | .ok (rest, s2) => .ok (rs ++ rest, s2)

/-- The sequential batch loop of a state-threading scan. -/
def runStateBatches {α β : Type} (f : AnalyzerState → α → Except AError (List β × AnalyzerState)) :
    List (List α) → AnalyzerState → Except AError (List β × AnalyzerState)
  | [], s => .ok ([], s)
  | b :: bs, s =>
    match runStateBatch f b s with
    | .error e => .error e
    | .ok (rs, s1) =>
      match runStateBatches f bs s1 with
      | .error e => .error e
      | .ok (rest, s2) => .ok (rs ++ rest, s2)

def firstSome (a b : Option String) : Option String :=
  match a with
  | some x => some x
  | none => b

/-! ## analyzeClass and findClassHierarchy -/

/-- The search loop of `analyzeClass`: parse each file in turn and return as
soon as the class cache holds the class. -/
def analyzeClassLoop (env : Env) (className : String) :
    List String → AnalyzerState → Except AError (ClassInfo × AnalyzerState)
  | [], _ => .error (.classNotFound className)
  | f :: fs, s =>
    match parseFile env s f with
    | .error e => .error e
    | .ok ((), s1) =>
      match mapGet s1.classCache className with
      | some info => .ok (info, s1)
      | none => analyzeClassLoop env className fs s1

/-- `analyzeClass(className)`: guard initialization, try the class cache, then
scan `**/*.h` under `customPath || unrealPath`. -/
def analyzeClass (env : Env) (s : AnalyzerState) (className : String) :
    Except AError (ClassInfo × AnalyzerState) :=
  if s.initialized = false then .error .notInitialized
  else
    match mapGet s.classCache className with
    | some info => .ok (info, s)
    | none =>
      match firstSome s.customPath s.unrealPath with
      | none => .error .noSearchPath
      | some searchPath =>
        analyzeClassLoop env className (globSync "**/*.h" searchPath env.fs) s

/-- `findClassHierarchy(className, includeInterfaces)`: analyze the class,
then resolve every superclass recursively, catching (and dropping) any failing
branch.  The source recursion has no cycle guard, so the embedding carries
explicit fuel; `fuelExhausted` marks the diverging executions. -/
def findClassHierarchy (fuel : Nat) (env : Env) (s : AnalyzerState) (className : String)
    (includeInterfaces : Bool := true) : Except AError (ClassHierarchy × AnalyzerState) :=
  match fuel with
  | 0 => .error .fuelExhausted
  | fuel + 1 =>
    match analyzeClass env s className with
    | .error e => .error e
    | .ok (info, s1) =>
      let folded := info.superclasses.foldl
        (fun (acc : List ClassHierarchy × AnalyzerState) sup =>
          match findClassHierarchy fuel env acc.2 sup includeInterfaces with
          | .ok (h, s2) => (acc.1 ++ [h], s2)
          | .error _ => acc)
        ([], s1)
      .ok (.mk info.name folded.1 (if includeInterfaces then info.interfaces else []), folded.2)

/-! ## findReferences (§4.5) -/

inductive RefKind where
  | classK
  | functionK
  | variableK
deriving DecidableEq, Repr

/-- JavaScript template interpolation of the optional `type` argument
(`undefined` prints as `"undefined"`). -/
def kindStr : Option RefKind → String
  | some .classK => "class"
  | some .functionK => "function"
  | some .variableK => "variable"
  | none => "undefined"

/-- The `±2`-line context window: `lines.slice(Math.max(0, i - 2), i + 3)`
joined with newlines. -/
def contextAt (lines : List String) (i : Nat) : String :=
  joinSep "\n" ((lines.drop (i - 2)).take ((i + 3) - (i - 2)))

/-- The per-file worker of `findReferences`: read, reuse any cached tree
(without an error check), fetch or compile the per-`(type, identifier)` query,
and map every match to a `CodeReference`. -/
def findRefsFile (env : Env) (identifier : String) (rkind : Option RefKind)
    (st : AnalyzerState) (file : String) : Except AError (List CodeReference × AnalyzerState) :=
  match readFile env.fs file with
  | .error e => .error e
  | .ok content =>
    let parsed : SNode × AnalyzerState :=
      match mapGet st.astCache file with
      | some t => (t, st)
      | none =>
        let nt := env.parse content
        let mc := manageCache st.astCache st.cacheQueue file nt
        (nt, { st with astCache := mc.1, cacheQueue := mc.2, parseCount := st.parseCount + 1 })
    let queryString :=
      if rkind = some .classK then mkEqQueryString "type_identifier" identifier
      else mkEqQueryString "identifier" identifier
    let cacheKey := kindStr rkind ++ "-" ++ identifier
    let fetched : Query × AnalyzerState :=
      match mapGet parsed.2.queryCache cacheKey with
      | some q => (q, parsed.2)
      | none =>
        let q := createQuery queryString
        (q, { parsed.2 with queryCache := mapSet parsed.2.queryCache cacheKey q })
    let lines := splitLines content
    .ok ((queryMatchNodes fetched.1 parsed.1).map (fun node =>
      { file := file, line := node.row + 1, column := node.col + 1,
        context := contextAt lines node.row }), fetched.2)

/-- `findReferences(identifier, type)`: guard initialization and the search
path, then scan `**/*.{h,cpp}` in batches of 10. -/
def findReferences (env : Env) (s : AnalyzerState) (identifier : String)
    (rkind : Option RefKind) : Except AError (List CodeReference × AnalyzerState) :=
  if s.initialized = false then .error .notInitialized
  else
    match firstSome s.customPath s.unrealPath with
    | none => .error .noSearchPath
    | some searchPath =>
      runStateBatches (findRefsFile env identifier rkind)
        (chunks 10 (globSync "**/*.\x7bh,cpp\x7d" searchPath env.fs)) s

/-! ## searchCode (§4.6) -/

/-- Modelled from the spec: `new RegExp(query, 'gi').test(line)`.  The spec
compiles "a case-insensitive global regular expression from the literal query
pattern"; for metacharacter-free patterns this is case-insensitive substring
containment, which is what the model implements. -/
def regexTest (query line : String) : Bool := strIncludes (strLower line) (strLower query)

/-- `line.indexOf(query) + 1`: the 1-based column, which collapses to `0`
when the literal pattern does not occur in the line (`indexOf` returns `-1`). -/
def colOf (query line : String) : Nat :=
  match strIdxOf line query with
  | some i => i + 1
  | none => 0

/-- Is the line's trimmed form comment-leading (`//` or `/*`)? -/
def isCommentLine (line : String) : Bool :=
  strStartsWith (strTrim line) "//" || strStartsWith (strTrim line) "/*"

/-- The body of the `for (let i = 0; i < lines.length; i++)` loop of
`searchCode`, with `i` the index of the first line of `rest` within
`allLines`. -/
def searchLinesAux (query : String) (includeComments : Bool) (file : String)
    (allLines : List String) : Nat → List String → List CodeReference
  | _, [] => []
  | i, l :: rest =>
    (if (includeComments || !isCommentLine l) && regexTest query l then
      [{ file := file, line := i + 1, column := colOf query l, context := contextAt allLines i }]
     else [])
      ++ searchLinesAux query includeComments file allLines (i + 1) rest

/-- The per-file line scan of `searchCode`: skip whole comment-leading lines
when `includeComments` is false, test the regex, and emit a reference with the
literal-index column and the `±2`-line context. -/
def searchLines (query : String) (includeComments : Bool) (file : String)
    (lines : List String) : List CodeReference :=
  searchLinesAux query includeComments file lines 0 lines

/-- `searchCode(query, filePattern, includeComments)`: guard initialization
and the Unreal path, then scan the globbed files in batches of 20. -/
def searchCode (env : Env) (s : AnalyzerState) (query : String)
    (filePattern : String := "*.\x7bh,cpp\x7d") (includeComments : Bool := true) :
    Except AError (List CodeReference) :=
  if s.initialized = false then .error .notInitialized
  else
    match s.unrealPath with
    | none => .error .noSearchPath
    | some root =>
      runBatches (fun file =>
          match readFile env.fs file with
          | .error e => .error e
          | .ok content => .ok (searchLines query includeComments file (splitLines content)))
        (chunks 20 (globSync ("**/" ++ filePattern) root env.fs))

/-! ## Pattern detector (§4.7) -/

def UNREAL_PATTERNS : List PatternInfo :=
  [{ name := "UPROPERTY Macro",
     description := "Property declaration for Unreal reflection system",
     bestPractices :=
       ["Use appropriate property specifiers (EditAnywhere, BlueprintReadWrite, etc.)",
        "Consider replication needs (Replicated, ReplicatedUsing)",
        "Group related properties with categories"],
     documentation := "https://docs.unrealengine.com/5.0/en-US/unreal-engine-uproperty-specifier-reference/",
     examples :=
       ["UPROPERTY(EditAnywhere, BlueprintReadWrite, Category = \"Combat\")\nfloat Health;",
        "UPROPERTY(Replicated)\nFVector Location;"],
     relatedPatterns := ["UFUNCTION Macro", "UCLASS Macro"] },
   { name := "Component Setup",
     description := "Creating and initializing components in constructor",
     bestPractices :=
       ["Create components in constructor",
        "Set default values in constructor",
        "Use CreateDefaultSubobject for components",
        "Set root component appropriately"],
     documentation := "https://docs.unrealengine.com/5.0/en-US/components-in-unreal-engine/",
     examples :=
       ["RootComponent = CreateDefaultSubobject<USceneComponent>(TEXT(\"Root\"));",
        "MeshComponent = CreateDefaultSubobject<UStaticMeshComponent>(TEXT(\"Mesh\"));"],
     relatedPatterns := ["Actor Initialization", "Component Registration"] },
   { name := "Event Binding",
     description := "Binding to delegate events and implementing event handlers",
     bestPractices :=
       ["Bind events in BeginPlay",
        "Unbind events in EndPlay",
        "Use DECLARE_DYNAMIC_MULTICAST_DELEGATE for Blueprint exposure",
        "Consider weak pointer bindings for safety"],
     documentation := "https://docs.unrealengine.com/5.0/en-US/delegates-in-unreal-engine/",
     examples :=
       ["OnHealthChanged.AddDynamic(this, &AMyActor::HandleHealthChanged);",
        "FScriptDelegate Delegate; Delegate.BindUFunction(this, \"OnCustomEvent\");"],
     relatedPatterns := ["Delegate Declaration", "Event Dispatching"] }]

/-- Continuation of the UPROPERTY regex after the literal: `\s*\([^)]*\)`. -/
def upropAfter (l : List Char) : Bool :=
  match l.dropWhile Char.isWhitespace with
  | '(' :: rest => rest.any (fun c => c == ')')
  | _ => false

/-- `/UPROPERTY\s*\([^)]*\)/.test(line)`, modelled character by character. -/
def upropertyRegex (line : String) : Bool :=
  scanFor ("UPROPERTY").data upropAfter line.data

/-- After the first `>` that closes `<[^>]+`, expect `\s*\(`. -/
def closeAngleThenParen : List Char → Bool
  | [] => false
  | c :: rest =>
    if c == '>' then
      match rest.dropWhile Char.isWhitespace with
      | '(' :: _ => true
      | _ => false
    else closeAngleThenParen rest

/-- Continuation of the Component Setup regex after the literal:
`\s*<[^>]+>\s*\(`. -/
def compAfter (l : List Char) : Bool :=
  match l.dropWhile Char.isWhitespace with
  | '<' :: rest =>
    match rest with
    | [] => false
    | d :: rest2 => if d == '>' then false else closeAngleThenParen rest2
  | _ => false

/-- `/CreateDefaultSubobject\s*<[^>]+>\s*\(/.test(line)`. -/
def componentRegex (line : String) : Bool :=
  scanFor ("CreateDefaultSubobject").data compAfter line.data

/-- `/\.Add(Dynamic|Unique|Raw|Lambda)|BindUFunction/.test(line)`. -/
def eventRegex (line : String) : Bool :=
  strIncludes line ".AddDynamic" || strIncludes line ".AddUnique" ||
    strIncludes line ".AddRaw" || strIncludes line ".AddLambda" ||
    strIncludes line "BindUFunction"

/-- `isPatternMatch(line, patternName)`: the per-pattern regex table. -/
def isPatternMatch (line patternName : String) : Bool :=
  if patternName = "UPROPERTY Macro" then upropertyRegex line
  else if patternName = "Component Setup" then componentRegex line
  else if patternName = "Event Binding" then eventRegex line
  else false

/-- `analyzePotentialImprovements(context, pattern)`. -/
def analyzePotentialImprovements (context : String) (pattern : PatternInfo) : List String :=
  if pattern.name = "UPROPERTY Macro" then
    (if !strIncludes context "Category" then
       ["Consider adding a Category specifier for better organization"] else []) ++
    (if strIncludes context "BlueprintReadWrite" && !strIncludes context "Meta" then
       ["Consider adding Meta specifiers for validation"] else [])
  else if pattern.name = "Component Setup" then
    if !strIncludes context "RootComponent" && strIncludes context "CreateDefaultSubobject" then
      ["Consider setting up component hierarchy"] else []
  else if pattern.name = "Event Binding" then
    if !strIncludes (strLower context) "beginplay" && !strIncludes (strLower context) "endplay" then
      ["Consider managing event binding/unbinding in BeginPlay/EndPlay"] else []
  else []

/-- `getLearningResources(pattern)`: the two static records. -/
def getLearningResources (pattern : PatternInfo) : List LearningResource :=
  [{ title := "Official Documentation", rtype := "documentation",
     url := pattern.documentation,
     description := "Official Unreal Engine documentation for " ++ pattern.name },
   { title := "Community Guide", rtype := "tutorial",
     url := "https://unrealcommunity.wiki/" ++ ⟨collapseWs '-' (strLower pattern.name).data⟩,
     description := "Community-created guide with practical examples" }]

/-- `detectPatterns(fileContent, filePath)`: for each catalog pattern and each
line, match by first-example-first-line containment or by the per-pattern
regex; on a match emit the context, improvement suggestions and learning
resources.  Note: this method performs no initialization check. -/
def detectPatterns (s : AnalyzerState) (fileContent filePath : String) :
    Except AError (List CodePatternMatch × AnalyzerState) :=
  let lines := splitLines fileContent
  .ok (UNREAL_PATTERNS.flatMap (fun pattern =>
    lines.enum.filterMap (fun p =>
      let context := contextAt lines p.1
      if pattern.examples.any (fun ex => strIncludes p.2 ((splitLines ex).headD "")) ||
          isPatternMatch p.2 pattern.name then
        some { pattern := pattern, file := filePath, line := p.1 + 1, context := context,
               suggestedImprovements := analyzePotentialImprovements context pattern,
               learningResources := getLearningResources pattern }
      else none)), s)

/-! ## API reference synthesizer (§4.8) -/

def extractDescription (comments : List String) : String :=
  strTrim ⟨descClean (joinSep " " (comments.filter (fun c =>
    !strIncludes c "@example" && !strIncludes c "@remarks" && !strIncludes c "@see"))).data⟩

def extractExamples (comments : List String) : List String :=
  (comments.filter (fun c => strIncludes c "@example")).map (fun c => strTrim (stripTag "@example" c))

def extractRemarks (comments : List String) : List String :=
  (comments.filter (fun c => strIncludes c "@remarks")).map (fun c => strTrim (stripTag "@remarks" c))

def generateClassSyntax (ci : ClassInfo) : String :=
  "class " ++ ci.name ++
    (match ci.superclasses with
     | [] => ""
     | l => " : public " ++ joinSep ", public " l)

def determineCategory (ci : ClassInfo) : String :=
  if strStartsWith ci.name "U" then "Object"
  else if strStartsWith ci.name "A" then "Actor"
  else if strStartsWith ci.name "F" then "Structure"
  else if ci.superclasses.any (fun s => strIncludes s "Component") then "Component"
  else "Miscellaneous"

def afterRuntime : List String → String
  | [] => "Core"
  | p :: rest =>
    if p = "Runtime" then
      match rest with
      | n :: _ => n
      | [] => "Core"
    else afterRuntime rest

/-- `determineModule(filePath)`: the path segment following the first
`Runtime` component, defaulting to `Core`. -/
def determineModule (filePath : String) : String :=
  afterRuntime ((splitC '/' filePath.data).map (⟨·⟩))

/-- `getOrCreateApiReference(classInfo)`: the api cache hit, or a freshly
synthesized record stored with a plain `Map.set`. -/
def getOrCreateApiReference (s : AnalyzerState) (ci : ClassInfo) : ApiReference × AnalyzerState :=
  match mapGet s.apiCache ci.name with
  | some r => (r, s)
  | none =>
    let apiRef : ApiReference :=
      { className := ci.name
        description := extractDescription ci.comments
        signature := generateClassSyntax ci
        examples := extractExamples ci.comments
        remarks := extractRemarks ci.comments
        relatedClasses := ci.superclasses ++ ci.interfaces
        category := determineCategory ci
        module := determineModule ci.file
        version := "5.0" }
    (apiRef, { s with apiCache := mapSet s.apiCache ci.name apiRef })

/-- `calculateApiRelevance(apiRef, searchTerms)`: per term, +10 for a
class-name substring match, +5 for category, +5 for module, +2 for a match in
the joined field text. -/
def calculateApiRelevance (apiRef : ApiReference) (searchTerms : List String) : Nat :=
  let text := strLower (joinSep " "
    ([apiRef.className, apiRef.description, apiRef.category, apiRef.module] ++
      apiRef.relatedClasses ++ apiRef.examples ++ apiRef.remarks))
  searchTerms.foldl (fun score term =>
    score + (if strIncludes (strLower apiRef.className) term then 10 else 0)
          + (if strIncludes (strLower apiRef.category) term then 5 else 0)
          + (if strIncludes (strLower apiRef.module) term then 5 else 0)
          + (if strIncludes text term then 2 else 0)) 0

def generateApiContext (apiRef : ApiReference) (includeExamples : Bool) : String :=
  let base := apiRef.className ++ " - " ++ apiRef.description ++ "\n" ++
    "Module: " ++ apiRef.module ++ "\n" ++
    "Category: " ++ apiRef.category ++ "\n\n" ++
    "Syntax:\n" ++ apiRef.signature ++ "\n"
  if includeExamples && !apiRef.examples.isEmpty then
    base ++ "\nExamples:\n" ++ joinSep "\n" (apiRef.examples.map (· ++ "\n"))
  else base

/-- Descending stable insertion (the JavaScript stable
`sort((a, b) => b.relevance - a.relevance)`). -/
def insertDesc (x : ApiQueryResult) : List ApiQueryResult → List ApiQueryResult
  | [] => [x]
  | y :: ys => if x.relevance < y.relevance then y :: insertDesc x ys else x :: y :: ys

def sortByRelevance (l : List ApiQueryResult) : List ApiQueryResult := l.foldr insertDesc []

/-- The truthy-and-mismatch test of
`if (options.category && apiRef.category !== options.category) continue`. -/
def categoryMismatch (options : ApiQueryOptions) (apiRef : ApiReference) : Bool :=
  match options.category with
  | some c => decide (apiRef.category ≠ c)
  | none => false

def moduleMismatch (options : ApiQueryOptions) (apiRef : ApiReference) : Bool :=
  match options.module with
  | some m => decide (apiRef.module ≠ m)
  | none => false

/-- The per-class accumulation step of `queryApiReference`. -/
def apiQueryStep (options : ApiQueryOptions) (searchTerms : List String)
    (acc : List ApiQueryResult × AnalyzerState) (entry : String × ClassInfo) :
    List ApiQueryResult × AnalyzerState :=
  let built := getOrCreateApiReference acc.2 entry.2
  let apiRef := built.1
  if categoryMismatch options apiRef then (acc.1, built.2)
  else if moduleMismatch options apiRef then (acc.1, built.2)
  else
    let relevance := calculateApiRelevance apiRef searchTerms
    if 0 < relevance then
      (acc.1 ++ [{ reference := apiRef
                   context := generateApiContext apiRef (options.includeExamples.getD false)
                   relevance := relevance
                   learningResources := getLearningResources
                     { name := entry.1
                       description := apiRef.description
                       bestPractices := apiRef.remarks
                       documentation := "https://dev.epicgames.com/documentation/en-us/unreal-engine/API/" ++ apiRef.module ++ "/" ++ entry.1
                       examples := apiRef.examples
                       relatedPatterns := apiRef.relatedClasses } }], built.2)
    else (acc.1, built.2)

/-- `queryApiReference(query, options)`: guard initialization, tokenize the
lowercased query on whitespace, score every cached class, filter by the
optional category/module, sort descending by relevance and truncate to
`options.maxResults || 10`. -/
def queryApiReference (s : AnalyzerState) (query : String) (options : ApiQueryOptions) :
    Except AError (List ApiQueryResult × AnalyzerState) :=
  if s.initialized = false then .error .notInitialized
  else
    let searchTerms := splitWsJS (strLower query)
    let folded := s.classCache.foldl (apiQueryStep options searchTerms) ([], s)
    .ok ((sortByRelevance folded.1).take
      (match options.maxResults with
       | some m => if m = 0 then 10 else m
       | none => 10), folded.2)

/-! ## analyzeSubsystem -/

def subsystemDirs : List (String × String) :=
  [("Rendering", "Engine/Source/Runtime/RenderCore"),
   ("Physics", "Engine/Source/Runtime/PhysicsCore"),
   ("Audio", "Engine/Source/Runtime/AudioCore"),
   ("Networking", "Engine/Source/Runtime/Networking"),
   ("Input", "Engine/Source/Runtime/InputCore"),
   ("AI", "Engine/Source/Runtime/AIModule"),
   ("Animation", "Engine/Source/Runtime/AnimationCore"),
   ("UI", "Engine/Source/Runtime/UMG")]

/-- The per-header worker of `analyzeSubsystem`: call `parseFile`, then read
the file again, parse it afresh (unconditionally!) and collect the class-name
captures of the cached `CLASS` query. -/
def subsystemFile (env : Env) (s : AnalyzerState) (file : String) :
    Except AError (List String × AnalyzerState) :=
  match parseFile env s file with
  | .error e => .error e
  | .ok ((), s1) =>
    match readFile env.fs file with
    | .error e => .error e
    | .ok content =>
      let tree := env.parse content
      let s2 := { s1 with parseCount := s1.parseCount + 1 }
      match mapGet s2.queryCache "CLASS" with
      | none => .ok ([], s2)
      | some q =>
        .ok ((queryClassCaptures q tree).filterMap
          (fun m => if m.2 ≠ "" then some m.2 else none), s2)

/-- `analyzeSubsystem(subsystem)`: guard initialization and the Unreal path,
resolve the static subsystem directory, glob its sources and process the
headers in batches of 10. -/
def analyzeSubsystem (env : Env) (s : AnalyzerState) (subsystem : String) :
    Except AError (SubsystemInfo × AnalyzerState) :=
  if s.initialized = false then .error .notInitialized
  else
    match s.unrealPath with
    | none => .error .enginePathNotConfigured
    | some root =>
      match mapGet subsystemDirs subsystem with
      | none => .error (.unknownSubsystem subsystem)
      | some dir =>
        let fullPath := pathJoin root dir
        if dirExists env.fs fullPath = false then .error (.subsystemDirNotFound fullPath)
        else
          let sourceFiles := globSync "**/*.\x7bh,cpp\x7d" fullPath env.fs
          match runStateBatches (subsystemFile env)
              (chunks 10 (sourceFiles.filter (fun f => strEndsWith f ".h"))) s with
          | .error e => .error e
          | .ok (mainClasses, s1) =>
            .ok ({ name := subsystem, mainClasses := mainClasses, keyFeatures := [],
                   dependencies := [], sourceFiles := sourceFiles }, s1)

/-! ## Initialization -/

/-- The path loop of `buildInitialCache`: glob `**/*.h` under each base path
and `parseFile` the files in batches of 10. -/
def buildCachePaths (env : Env) : List String → AnalyzerState → Except AError (Unit × AnalyzerState)
  | [], s => .ok ((), s)
  | p :: ps, s =>
    match runStateBatches (fun st f =>
        match parseFile env st f with
        | .error e => .error e
        | .ok ((), st1) => .ok (([] : List Unit), st1))
      (chunks 10 (globSync "**/*.h" p env.fs)) s with
    | .error e => .error e
    | .ok (_, s1) => buildCachePaths env ps s1

/-- `buildInitialCache()`: the Unreal `Core`/`CoreUObject` runtime directories
when an engine path is set, otherwise the custom root. -/
def buildInitialCache (env : Env) (s : AnalyzerState) : Except AError (Unit × AnalyzerState) :=
  match s.unrealPath, s.customPath with
  | none, none => .error .noValidPath
  | up, cp =>
    buildCachePaths env
      (match up with
       | some u => [pathJoin u "Engine/Source/Runtime/Core", pathJoin u "Engine/Source/Runtime/CoreUObject"]
       | none =>
         match cp with
         | some c => [c]
         | none => []) s

/-- `initialize(enginePath)` (named `initializeEngine` here). -/
def initializeEngine (env : Env) (s : AnalyzerState) (enginePath : String) :
    Except AError (Unit × AnalyzerState) :=
  if dirExists env.fs enginePath = false then .error .invalidEnginePath
  else if dirExists env.fs (pathJoin enginePath "Engine") = false then .error .engineDirMissing
  else buildInitialCache env { s with unrealPath := some enginePath, initialized := true }

/-- `initializeCustomCodebase(customPath)`. -/
def initializeCustomCodebase (env : Env) (s : AnalyzerState) (customPath : String) :
    Except AError (Unit × AnalyzerState) :=
  if dirExists env.fs customPath = false then .error .invalidCustomPath
  else buildInitialCache env { s with customPath := some customPath, initialized := true }

/-! ## Spec-side definitions and concrete scenarios used by the claims -/

/-- The relevance formula in the spec's own words: per query term, +10 for a
class-name substring match, +5 for a category match, +5 for a module match,
and +2 for a substring match in any field, summed over the terms. -/
def apiRefFields (apiRef : ApiReference) : List String :=
  [apiRef.className, apiRef.description, apiRef.category, apiRef.module] ++
    apiRef.relatedClasses ++ apiRef.examples ++ apiRef.remarks

def specApiRelevance (apiRef : ApiReference) (searchTerms : List String) : Nat :=
  (searchTerms.map (fun term =>
    (if strIncludes (strLower apiRef.className) term then 10 else 0) +
    (if strIncludes (strLower apiRef.category) term then 5 else 0) +
    (if strIncludes (strLower apiRef.module) term then 5 else 0) +
    (if (apiRefFields apiRef).any (fun f => strIncludes (strLower f) term) then 2 else 0))).sum

/-- The fields of the analyzer state that none of the scan loops touch. -/
def coreFields (s : AnalyzerState) : Bool × Option String × Option String :=
  (s.initialized, s.unrealPath, s.customPath)

/-- Distinct non-empty string keys for the cache experiments. -/
def keyOf (n : Nat) : String := ⟨List.replicate (n + 1) 'a'⟩

/-- Folding a key sequence through `manageCache` (the Tree Cache discipline),
starting from an empty store and queue. -/
def insertAllTree (ks : List String) : List (String × Unit) × List String :=
  ks.foldl (fun acc k => manageCache acc.1 acc.2 k ()) ([], [])

def dummyInfo : ClassInfo :=
  { name := "", file := "", line := 0, superclasses := [], interfaces := [],
    methods := [], properties := [], comments := [] }

/-- An inert syntax tree (no classes, no errors). -/
def cleanTree : SNode := .mk "translation_unit" "x" 0 0 []

/-- The C3 header of the spec. -/
def c3Header : String := "class A : public B \x7b public: void M(); int P; \x7d;"

/-- Modelled from the spec: the syntax tree the external C++ grammar produces
for `c3Header`, in the node vocabulary of the spec's extraction contract
(`class_specifier` with a `type_identifier` name and `field_declaration_list`
body; a `base_class_clause` holding the base `type_identifier`; a
`function_definition` child with a nested `function_declarator` for the
method; a `field_declaration` child for the property). -/
def c3Tree : SNode :=
  .mk "translation_unit" c3Header 0 0
    [.mk "class_specifier" "" 0 0
      [.mk "type_identifier" "A" 0 6 [],
       .mk "base_class_clause" "" 0 8 [.mk "type_identifier" "B" 0 17 []],
       .mk "field_declaration_list" "" 0 19 [
         .mk "access_specifier" "public:" 0 21 [],
         .mk "function_definition" "void M();" 0 29 [
           .mk "type_identifier" "void" 0 29 [],
           .mk "function_declarator" "M()" 0 34 [
             .mk "identifier" "M" 0 34 [],
             .mk "parameter_list" "()" 0 35 []]],
         .mk "field_declaration" "int P;" 0 39 [
           .mk "type_identifier" "int" 0 39 [],
           .mk "identifier" "P" 0 43 []]]]]

def c3Env : Env where
  fs := { dirs := ["/p"], entries := ["/p/A.h"], contents := [("/p/A.h", c3Header)] }
  parse := fun c => if c = c3Header then c3Tree else .mk "translation_unit" c 0 0 []

/-- The class cache binding for a name after a `parseFile` run. -/
def classInfoAfterParse (env : Env) (s : AnalyzerState) (f name : String) : Option ClassInfo :=
  match parseFile env s f with
  | .ok ((), s1) => mapGet s1.classCache name
  | .error _ => none

def aactorInfo : ClassInfo :=
  { name := "AActor", file := "/ue/Engine/Source/Runtime/Core/AActor.h", line := 1,
    superclasses := [], interfaces := [], methods := [], properties := [], comments := [] }

def uacInfo : ClassInfo :=
  { name := "UActorComponent", file := "/ue/Engine/Source/Runtime/Core/UActorComponent.h", line := 1,
    superclasses := [], interfaces := [], methods := [], properties := [], comments := [] }

def c8State : AnalyzerState :=
  { mkAnalyzer with
    initialized := true
    unrealPath := some "/ue"
    classCache := [("AActor", aactorInfo), ("UActorComponent", uacInfo)] }

def opts8 : ApiQueryOptions := { maxResults := some 1 }

def apiResultNames (r : Except AError (List ApiQueryResult × AnalyzerState)) : Option (List String) :=
  match r with
  | .ok (res, _) => some (res.map (fun q => q.reference.className))
  | .error _ => none

def c8resPair : List ApiQueryResult × AnalyzerState :=
  ((queryApiReference c8State "actor" opts8).toOption).getD ([], mkAnalyzer)

def c6File : String := "/ue/Engine/Source/Runtime/RenderCore/a.h"

def c6Env : Env where
  fs := { dirs := ["/ue", "/ue/Engine", "/ue/Engine/Source/Runtime/RenderCore"],
          entries := [c6File], contents := [(c6File, "x")] }
  parse := fun _ => cleanTree

def c6State : AnalyzerState :=
  { mkAnalyzer with
    initialized := true
    unrealPath := some "/ue"
    astCache := [(c6File, cleanTree)]
    cacheQueue := [c6File] }

def parseCountAfterSubsystem (env : Env) (s : AnalyzerState) (sub : String) : Option Nat :=
  match analyzeSubsystem env s sub with
  | .ok (_, s1) => some s1.parseCount
  | .error _ => none

def c5Info : ClassInfo :=
  { name := "C", file := "/p/C.h", line := 1, superclasses := ["S"], interfaces := [],
    methods := [], properties := [], comments := [] }

def c5State : AnalyzerState :=
  { mkAnalyzer with
    initialized := true
    customPath := some "/p"
    classCache := [("C", c5Info)] }

def c5Env : Env where
  fs := { dirs := ["/p"], entries := [], contents := [] }
  parse := fun c => .mk "translation_unit" c 0 0 []

def c4Env : Env where
  fs := { dirs := ["/ue"], entries := ["/ue/a.h"], contents := [] }
  parse := fun _ => cleanTree

def c4State : AnalyzerState :=
  { mkAnalyzer with
    initialized := true
    unrealPath := some "/ue" }

def c9Env : Env where
  fs := { dirs := ["/ue"], entries := ["/ue/a.h"], contents := [("/ue/a.h", "foo")] }
  parse := fun _ => cleanTree

def c9Ref : CodeReference := { file := "/ue/a.h", line := 1, column := 0, context := "foo" }

def c10Env : Env where
  fs := { dirs := ["/p"], entries := [], contents := [] }
  parse := fun _ => cleanTree

def c10State : AnalyzerState :=
  { mkAnalyzer with
    initialized := true
    customPath := some "/p" }

/-! ## Map and cache lemmas -/

theorem mapGet_mapSet_self {K V : Type} [DecidableEq K] (m : List (K × V)) (k : K) (v : V) :
    mapGet (mapSet m k v) k = some v := by
  induction m with
  | nil => simp [mapSet, mapGet]
  | cons p rest ih =>
    obtain ⟨k', v'⟩ := p
    by_cases h : k' = k
    · subst h
      simp [mapSet, mapGet]
    · simp [mapSet, mapGet, h, ih]

theorem mapGet_mapSet_ne {K V : Type} [DecidableEq K] (m : List (K × V)) {k k' : K} (v : V)
    (h : k' ≠ k) : mapGet (mapSet m k v) k' = mapGet m k' := by
  have hne : ¬ k = k' := fun hh => h (Eq.symm hh)
  induction m with
  | nil => simp [mapSet, mapGet, hne]
  | cons p rest ih =>
    obtain ⟨k'', v''⟩ := p
    by_cases hk : k'' = k
    · subst hk
      simp [mapSet, mapGet, hne]
    · by_cases hk' : k'' = k'
      · subst hk'
        simp [mapSet, mapGet, hk]
      · simp [mapSet, mapGet, hk, hk', ih]

theorem mapGet_map_unit (q : List String) (x : String) :
    mapGet (q.map (fun j => (j, ()))) x = if x ∈ q then some () else none := by
  induction q with
  | nil => simp [mapGet]
  | cons a q ih =>
    by_cases h : a = x
    · subst h
      simp [mapGet]
    · have hxa : ¬ x = a := fun hh => h (Eq.symm hh)
      simp [mapGet, h, ih, hxa]

theorem mapSet_map_unit_not_mem {k : String} {q : List String} (h : k ∉ q) :
    mapSet (q.map (fun j => (j, ()))) k () = (q ++ [k]).map (fun j => (j, ())) := by
  induction q with
  | nil => simp [mapSet]
  | cons a q ih =>
    have ha : a ≠ k := fun hh => h (hh ▸ List.mem_cons_self a q)
    simp only [List.map_cons, mapSet, ha, if_false, List.cons_append]
    rw [ih (fun hm => h (List.mem_cons_of_mem a hm))]

theorem mapDelete_cons_self {K V : Type} [DecidableEq K] (m : List (K × V)) (k : K) (v : V) :
    mapDelete ((k, v) :: m) k = m := by
  simp [mapDelete]

theorem mapGet_foldl_mapSet {V : Type} (v : V) :
    ∀ (ks : List String) (m : List (String × V)) (x : String),
      ((mapGet m x).isSome = true ∨ x ∈ ks) →
      (mapGet (ks.foldl (fun m j => mapSet m j v) m) x).isSome = true := by
  intro ks
  induction ks with
  | nil =>
    intro m x h
    rcases h with h | h
    · simpa using h
    · simp at h
  | cons k ks ih =>
    intro m x h
    simp only [List.foldl_cons]
    apply ih
    by_cases hx : x = k
    · subst hx
      left
      simp [mapGet_mapSet_self]
    · rcases h with h | h
      · left
        rwa [mapGet_mapSet_ne _ _ hx]
      · rcases List.mem_cons.mp h with h | h
        · exact absurd h hx
        · right
          exact h

/-- Filling the tree cache through `manageCache` below capacity: every key is
stored and the queue records exactly the insertion order. -/
theorem treeFill :
    ∀ (ks q : List String), (q ++ ks).Nodup → (q ++ ks).length ≤ MAX_CACHE_SIZE →
      ks.foldl (fun acc k => manageCache acc.1 acc.2 k ()) (q.map (fun j => (j, ())), q) =
        ((q ++ ks).map (fun j => (j, ())), q ++ ks) := by
  intro ks
  induction ks with
  | nil =>
    intro q _ _
    simp
  | cons k ks ih =>
    intro q hnd hlen
    have hqlen : q.length < MAX_CACHE_SIZE := by
      have := hlen
      simp [List.length_append] at this
      omega
    have hknq : k ∉ q := by
      rw [List.nodup_append] at hnd
      exact fun hm => hnd.2.2 hm (List.mem_cons_self k ks)
    have hstep :
        manageCache (q.map (fun j => (j, ()))) q k () =
          ((q ++ [k]).map (fun j => (j, ())), q ++ [k]) := by
      unfold manageCache
      have : ¬ MAX_CACHE_SIZE ≤ (q.map (fun j => (j, ()))).length := by
        simp only [List.length_map]
        omega
      simp only [this, if_false]
      rw [mapSet_map_unit_not_mem hknq]
    simp only [List.foldl_cons, hstep]
    have hassoc : (q ++ [k]) ++ ks = q ++ k :: ks := by simp
    have h1 : ((q ++ [k]) ++ ks).Nodup := by rwa [hassoc]
    have h2 : ((q ++ [k]) ++ ks).length ≤ MAX_CACHE_SIZE := by rwa [hassoc]
    rw [ih (q ++ [k]) h1 h2, hassoc]

/-- C1, amended: only the Tree Cache is a bounded FIFO cache.  Folding 1001
distinct keys (the evicted one non-empty, as file paths are) through
`manageCache` leaves exactly the first key absent, every later key present and
the queue holding the surviving insertion order; the Class Cache (and the
Query and Api caches, which use the same plain `Map.set`) never evicts: every
inserted key stays present. -/
theorem claim_C1_theorem (k : String) (rest : List String)
    (hnd : (k :: rest).Nodup) (hlen : rest.length = MAX_CACHE_SIZE) (hk : k ≠ "") :
    mapGet (insertAllTree (k :: rest)).1 k = none ∧
    (∀ x ∈ rest, (mapGet (insertAllTree (k :: rest)).1 x).isSome = true) ∧
    (insertAllTree (k :: rest)).2 = rest ∧
    (∀ (ks : List String) (x : String), x ∈ ks →
      (mapGet (ks.foldl (fun m j => mapSet m j dummyInfo) []) x).isSome = true) := by
  have hne : rest ≠ [] := by
    intro h
    rw [h] at hlen
    simp [MAX_CACHE_SIZE] at hlen
  obtain ⟨mid, last, rfl⟩ : ∃ mid last, rest = mid ++ [last] := by
    cases hr : rest.reverse with
    | nil =>
      rw [List.reverse_eq_nil_iff] at hr
      exact absurd hr hne
    | cons a t =>
      refine ⟨t.reverse, a, ?_⟩
      rw [← List.reverse_reverse rest, hr]
      simp
  have hmidlen : mid.length + 1 = MAX_CACHE_SIZE := by
    simpa using hlen
  have hfill :
      insertAllTree (k :: (mid ++ [last])) =
        (((mid ++ [last]).map (fun j => (j, ()))), mid ++ [last]) := by
    have hsplit : k :: (mid ++ [last]) = (k :: mid) ++ [last] := by simp
    unfold insertAllTree
    rw [hsplit, List.foldl_append]
    have hsub : List.Sublist (k :: mid) (k :: (mid ++ [last])) :=
      List.Sublist.cons₂ k (List.sublist_append_left mid [last])
    have hnd1 : (k :: mid).Nodup := hnd.sublist hsub
    have hlen1 : (k :: mid).length ≤ MAX_CACHE_SIZE := by
      simp only [List.length_cons]
      omega
    have hfirst := treeFill (k :: mid) [] (by simpa using hnd1) (by simpa using hlen1)
    simp only [List.map_nil, List.nil_append] at hfirst
    rw [hfirst]
    simp only [List.foldl_cons, List.foldl_nil, List.map_cons]
    unfold manageCache
    have hcap : MAX_CACHE_SIZE ≤ ((k, ()) :: List.map (fun j => (j, ())) mid).length := by
      simp only [List.length_cons, List.length_map]
      omega
    have hlnm : last ∉ mid := by
      have : (mid ++ [last]).Nodup := (List.nodup_cons.mp hnd).2
      rw [List.nodup_append] at this
      exact fun hm => this.2.2 hm (List.mem_singleton.mpr rfl)
    simp only [hcap, if_true, hk, if_false, mapDelete_cons_self]
    rw [mapSet_map_unit_not_mem hlnm]
  have hknr : k ∉ mid ++ [last] := (List.nodup_cons.mp hnd).1
  refine ⟨?_, ?_, ?_, ?_⟩
  · rw [hfill]
    simp only [mapGet_map_unit]
    simp [hknr]
  · intro x hx
    rw [hfill]
    simp only [mapGet_map_unit]
    simp [hx]
  · rw [hfill]
  · intro ks x hx
    exact mapGet_foldl_mapSet dummyInfo ks [] x (Or.inr hx)

def c1Keys : List String := (List.range 1001).map keyOf

theorem keyOf_injective : Function.Injective keyOf := by
  intro a b h
  have hd : List.replicate (a + 1) 'a' = List.replicate (b + 1) 'a' := congrArg String.data h
  have := congrArg List.length hd
  simp at this
  omega

/-- C1 counterexample: inserting 1001 distinct keys into the Class Cache with
its plain `Map.set` (`classCacheInsert`) leaves the first-inserted key still
present — the claim's "exactly the first-inserted key is absent" fails for the
Class Cache (and, by the same plain `Map.set`, the Query and Api caches). -/
theorem claim_C1_counterexample :
    (mapGet ((c1Keys.foldl (fun s j => classCacheInsert s j dummyInfo) mkAnalyzer).classCache)
      (keyOf 0)).isSome = true := by
  have hbridge :
      ∀ (ks : List String) (s : AnalyzerState),
        (ks.foldl (fun s j => classCacheInsert s j dummyInfo) s).classCache =
          ks.foldl (fun m j => mapSet m j dummyInfo) s.classCache := by
    intro ks
    induction ks with
    | nil => intro s; rfl
    | cons a ks ih =>
      intro s
      rw [List.foldl_cons, List.foldl_cons, ih]
      rfl
  rw [hbridge]
  apply mapGet_foldl_mapSet
  right
  exact List.mem_map.mpr ⟨0, by simp [c1Keys], rfl⟩

def c1Rest : List String := (List.range 1000).map (fun n => keyOf (n + 1))

theorem claim_C1_witness :
    mapGet (insertAllTree (keyOf 0 :: c1Rest)).1 (keyOf 0) = none ∧
    (mapGet (insertAllTree (keyOf 0 :: c1Rest)).1 (keyOf 1000)).isSome = true := by
  have hlist : keyOf 0 :: c1Rest = (List.range 1001).map keyOf := by
    rw [List.range_succ_eq_map]
    simp [c1Rest, List.map_map, Function.comp]
  have hnd : (keyOf 0 :: c1Rest).Nodup := by
    rw [hlist]
    exact (List.nodup_range 1001).map keyOf_injective
  have hlen : c1Rest.length = MAX_CACHE_SIZE := by
    simp [c1Rest, MAX_CACHE_SIZE]
  have hk : keyOf 0 ≠ "" := by decide
  have h := claim_C1_theorem (keyOf 0) c1Rest hnd hlen hk
  refine ⟨h.1, h.2.1 (keyOf 1000) ?_⟩
  exact List.mem_map.mpr ⟨999, by simp [c1Rest], by norm_num⟩

/-! ## C2: initialization guards -/

/-- C2, amended: every query operation except `detectPatterns` fails with
`NotInitializedError` ("Analyzer not initialized") before any successful
initialization, for all argument values (`findClassHierarchy` through its
unguarded call to `analyzeClass`); `detectPatterns` performs no
initialization check and returns a result on any input. -/
theorem claim_C2_theorem (s : AnalyzerState) (h : s.initialized = false) :
    (∀ env className, analyzeClass env s className = .error .notInitialized) ∧
    (∀ g env className incl,
      findClassHierarchy (g + 1) env s className incl = .error .notInitialized) ∧
    (∀ env identifier rkind, findReferences env s identifier rkind = .error .notInitialized) ∧
    (∀ env q fp ic, searchCode env s q fp ic = .error .notInitialized) ∧
    (∀ env sub, analyzeSubsystem env s sub = .error .notInitialized) ∧
    (∀ q opts, queryApiReference s q opts = .error .notInitialized) ∧
    (AError.message .notInitialized = "Analyzer not initialized") ∧
    (∀ content path, ∃ ms, detectPatterns s content path = .ok (ms, s)) := by
  refine ⟨?_, ?_, ?_, ?_, ?_, ?_, rfl, ?_⟩
  · intro env className
    simp [analyzeClass, h]
  · intro g env className incl
    simp [findClassHierarchy, analyzeClass, h]
  · intro env identifier rkind
    simp [findReferences, h]
  · intro env q fp ic
    simp [searchCode, h]
  · intro env sub
    simp [analyzeSubsystem, h]
  · intro q opts
    simp [queryApiReference, h]
  · intro content path
    exact ⟨_, rfl⟩

/-- C2 counterexample: on the freshly constructed (uninitialized) analyzer,
`detectPatterns` does not raise `NotInitializedError` — it succeeds. -/
theorem claim_C2_counterexample :
    mkAnalyzer.initialized = false ∧
    detectPatterns mkAnalyzer "" "f.h" = .ok ([], mkAnalyzer) := by
  exact ⟨rfl, rfl⟩

theorem claim_C2_witness :
    analyzeClass c10Env mkAnalyzer "X" = .error .notInitialized ∧
    findClassHierarchy 1 c10Env mkAnalyzer "X" true = .error .notInitialized ∧
    findReferences c10Env mkAnalyzer "X" none = .error .notInitialized ∧
    searchCode c10Env mkAnalyzer "q" "*.h" true = .error .notInitialized ∧
    analyzeSubsystem c10Env mkAnalyzer "Rendering" = .error .notInitialized ∧
    queryApiReference mkAnalyzer "q" {} = .error .notInitialized := by
  have h := claim_C2_theorem mkAnalyzer rfl
  exact ⟨h.1 c10Env "X", h.2.1 0 c10Env "X" true, h.2.2.1 c10Env "X" none,
    h.2.2.2.1 c10Env "q" "*.h" true, h.2.2.2.2.1 c10Env "Rendering",
    h.2.2.2.2.2.1 "q" {}⟩

/-! ## C3: extraction of the spec's example header -/

/-- C3: parsing a header containing
`class A : public B { public: void M(); int P; };` (through the spec-modelled
tree of the external grammar) yields a `ClassInfo` named `A` with superclasses
`["B"]`, exactly one method `M` with return type `void` and no parameters, and
exactly one property `P` of type `int`. -/
theorem claim_C3_theorem :
    classInfoAfterParse c3Env mkAnalyzer "/p/A.h" "A" =
      some { name := "A", file := "/p/A.h", line := 1, superclasses := ["B"], interfaces := [],
             methods := [{ name := "M", returnType := "void", parameters := [],
                           isVirtual := false, isOverride := false, visibility := .pub,
                           comments := [], line := 1 }],
             properties := [{ name := "P", type := "int", visibility := .pub,
                              comments := [], line := 1 }],
             comments := [] } := by
  rfl

/-! ## C5: hierarchy resolution drops missing superclasses -/

/-- C5: when `analyzeClass` resolves a class whose single declared superclass
cannot itself be analyzed (not found anywhere on the search path), the
recursive `findClassHierarchy` call fails inside the per-superclass
`try`/`catch`, the branch is dropped, and the call returns the hierarchy node
with an empty superclass list instead of raising. -/
theorem claim_C5_theorem (env : Env) (s : AnalyzerState) (className : String)
    (info : ClassInfo) (s1 : AnalyzerState) (sup : String) (e : AError) (g : Nat)
    (h1 : analyzeClass env s className = .ok (info, s1))
    (h2 : info.superclasses = [sup])
    (h3 : analyzeClass env s1 sup = .error e) :
    findClassHierarchy (g + 2) env s className true =
      .ok (.mk info.name [] info.interfaces, s1) := by
  have hrec : findClassHierarchy (g + 1) env s1 sup true = .error e := by
    simp [findClassHierarchy, h3]
  simp [findClassHierarchy, h1, h2, hrec, h3]

theorem claim_C5_witness :
    findClassHierarchy 2 c5Env c5State "C" true =
      .ok (.mk c5Info.name [] c5Info.interfaces, c5State) :=
  claim_C5_theorem c5Env c5State "C" c5Info c5State "S" (.classNotFound "S") 0 rfl rfl rfl

/-! ## Batching lemmas -/

theorem chunksAux_flatten {α : Type} (n : Nat) :
    ∀ (fuel : Nat) (l : List α), l.length ≤ fuel → (chunksAux fuel n l).flatten = l := by
  intro fuel
  induction fuel with
  | zero =>
    intro l hl
    have : l = [] := List.eq_nil_of_length_eq_zero (Nat.le_zero.mp hl)
    subst this
    rfl
  | succ fuel ih =>
    intro l hl
    cases l with
    | nil => rfl
    | cons x xs =>
      simp only [chunksAux, List.flatten_cons]
      have hdrop : (xs.drop (n - 1)).length ≤ fuel := by
        have h1 : xs.length ≤ fuel := by
          simpa using hl
        calc (xs.drop (n - 1)).length ≤ xs.length := by
              simp [List.length_drop]
          _ ≤ fuel := h1
      rw [ih _ hdrop]
      simp [List.take_append_drop]

theorem mem_chunks {α : Type} {a : α} {l : List α} (n : Nat) (h : a ∈ l) :
    ∃ b ∈ chunks n l, a ∈ b := by
  have hfl : (chunks n l).flatten = l := chunksAux_flatten n l.length l le_rfl
  rw [← hfl] at h
  exact List.mem_flatten.mp h

theorem batchAll_isErr {α β : Type} {f : α → Except AError (List β)} {b : List α} {a : α}
    (ha : a ∈ b) (hf : (f a).isErr = true) : (batchAll f b).isErr = true := by
  induction b with
  | nil => simp at ha
  | cons x b ih =>
    rcases List.mem_cons.mp ha with rfl | ha
    · cases hx : f a with
      | error e => simp [batchAll, hx, Except.isErr]
      | ok v =>
        rw [hx] at hf
        simp [Except.isErr] at hf
    · cases hx : f x with
      | error e => simp [batchAll, hx, Except.isErr]
      | ok v =>
        have := ih ha
        cases hb : batchAll f b with
        | error e => simp [batchAll, hx, hb, Except.isErr]
        | ok rest =>
          rw [hb] at this
          simp [Except.isErr] at this

theorem runBatches_isErr {α β : Type} {f : α → Except AError (List β)} {bs : List (List α)}
    {b : List α} {a : α} (hb : b ∈ bs) (ha : a ∈ b) (hf : (f a).isErr = true) :
    (runBatches f bs).isErr = true := by
  induction bs with
  | nil => simp at hb
  | cons c bs ih =>
    rcases List.mem_cons.mp hb with rfl | hb
    · have := batchAll_isErr ha hf
      cases hc : batchAll f b with
      | error e => simp [runBatches, hc, Except.isErr]
      | ok rs =>
        rw [hc] at this
        simp [Except.isErr] at this
    · cases hc : batchAll f c with
      | error e => simp [runBatches, hc, Except.isErr]
      | ok rs =>
        have := ih hb
        cases hr : runBatches f bs with
        | error e => simp [runBatches, hc, hr, Except.isErr]
        | ok rest =>
          rw [hr] at this
          simp [Except.isErr] at this

theorem runStateBatch_isErr {α β : Type}
    {f : AnalyzerState → α → Except AError (List β × AnalyzerState)} {b : List α} {a : α}
    (ha : a ∈ b) (hf : ∀ st, (f st a).isErr = true) :
    ∀ s, (runStateBatch f b s).isErr = true := by
  induction b with
  | nil => simp at ha
  | cons x b ih =>
    intro s
    rcases List.mem_cons.mp ha with rfl | ha
    · cases hx : f s a with
      | error e => simp [runStateBatch, hx, Except.isErr]
      | ok v =>
        have := hf s
        rw [hx] at this
        simp [Except.isErr] at this
    · cases hx : f s x with
      | error e => simp [runStateBatch, hx, Except.isErr]
      | ok v =>
        have := ih ha v.2
        cases hb : runStateBatch f b v.2 with
        | error e => simp [runStateBatch, hx, hb, Except.isErr]
        | ok rest =>
          rw [hb] at this
          simp [Except.isErr] at this

theorem runStateBatches_isErr {α β : Type}
    {f : AnalyzerState → α → Except AError (List β × AnalyzerState)} {bs : List (List α)}
    {b : List α} {a : α} (hb : b ∈ bs) (ha : a ∈ b) (hf : ∀ st, (f st a).isErr = true) :
    ∀ s, (runStateBatches f bs s).isErr = true := by
  induction bs with
  | nil => simp at hb
  | cons c bs ih =>
    intro s
    rcases List.mem_cons.mp hb with rfl | hb
    · have := runStateBatch_isErr ha hf s
      cases hc : runStateBatch f b s with
      | error e => simp [runStateBatches, hc, Except.isErr]
      | ok v =>
        rw [hc] at this
        simp [Except.isErr] at this
    · cases hc : runStateBatch f c s with
      | error e => simp [runStateBatches, hc, Except.isErr]
      | ok v =>
        have := ih hb v.2
        cases hr : runStateBatches f bs v.2 with
        | error e => simp [runStateBatches, hc, hr, Except.isErr]
        | ok rest =>
          rw [hr] at this
          simp [Except.isErr] at this

/-! ## C4: fail-fast batches -/

/-- C4: batch processing is fail-fast.  If any single globbed file cannot be
read (an I/O rejection inside the concurrent `Promise.all` group), the whole
scanning operation rejects — both for `searchCode` (batches of 20) and for
`findReferences` (batches of 10) — instead of isolating the failure to that
one file. -/
theorem claim_C4_theorem :
    (∀ (env : Env) (s : AnalyzerState) (root q fp : String) (ic : Bool) (f : String),
      s.initialized = true → s.unrealPath = some root →
      f ∈ globSync ("**/" ++ fp) root env.fs → mapGet env.fs.contents f = none →
      (searchCode env s q fp ic).isErr = true) ∧
    (∀ (env : Env) (s : AnalyzerState) (sp identifier : String) (rkind : Option RefKind)
      (f : String),
      s.initialized = true → firstSome s.customPath s.unrealPath = some sp →
      f ∈ globSync "**/*.\x7bh,cpp\x7d" sp env.fs → mapGet env.fs.contents f = none →
      (findReferences env s identifier rkind).isErr = true) := by
  constructor
  · intro env s root q fp ic f hinit hroot hmem hread
    obtain ⟨b, hb, ha⟩ := mem_chunks 20 hmem
    simp only [searchCode, hinit, hroot]
    exact runBatches_isErr hb ha (by simp only [readFile, hread]; rfl)
  · intro env s sp identifier rkind f hinit hsp hmem hread
    obtain ⟨b, hb, ha⟩ := mem_chunks 10 hmem
    simp only [findReferences, hinit, hsp]
    exact runStateBatches_isErr hb ha
      (fun st => by simp only [findRefsFile, readFile, hread]; rfl) s

theorem claim_C4_witness :
    (searchCode c4Env c4State "x" "*.\x7bh,cpp\x7d" true).isErr = true ∧
    (findReferences c4Env c4State "x" none).isErr = true := by
  constructor
  · exact claim_C4_theorem.1 c4Env c4State "/ue" "x" "*.\x7bh,cpp\x7d" true "/ue/a.h"
      rfl rfl (by decide) rfl
  · exact claim_C4_theorem.2 c4Env c4State "/ue" "x" none "/ue/a.h"
      rfl rfl (by decide) rfl

/-! ## Error-shape and state-preservation lemmas -/

theorem readFile_error_shape {fs : FileSystem} {p : String} {e : AError}
    (h : readFile fs p = .error e) : e = .ioError p := by
  unfold readFile at h
  cases hm : mapGet fs.contents p with
  | some c => rw [hm] at h; cases h
  | none =>
    rw [hm] at h
    cases h
    rfl

theorem parseFile_error_shape {env : Env} {s : AnalyzerState} {f : String} {e : AError}
    (h : parseFile env s f = .error e) : e = .ioError f := by
  unfold parseFile at h
  cases hr : readFile env.fs f with
  | error e' =>
    rw [hr] at h
    cases h
    exact readFile_error_shape hr
  | ok content =>
    rw [hr] at h
    cases hm : mapGet s.astCache f with
    | some t =>
      rw [hm] at h
      by_cases he : t.hasError
      · simp [he] at h
      · simp [he] at h
    | none => rw [hm] at h; cases h

theorem findRefsFile_error_shape {env : Env} {idf : String} {k : Option RefKind}
    {st : AnalyzerState} {f : String} {e : AError}
    (h : findRefsFile env idf k st f = .error e) : e = .ioError f := by
  unfold findRefsFile at h
  cases hr : readFile env.fs f with
  | error e' =>
    rw [hr] at h
    cases h
    exact readFile_error_shape hr
  | ok content => rw [hr] at h; cases h

theorem analyzeClassLoop_error_shape {env : Env} {cn : String} :
    ∀ {files : List String} {st : AnalyzerState} {e : AError},
      analyzeClassLoop env cn files st = .error e →
      (∃ p, e = .ioError p) ∨ e = .classNotFound cn := by
  intro files
  induction files with
  | nil =>
    intro st e h
    cases h
    exact Or.inr rfl
  | cons f fs ih =>
    intro st e h
    unfold analyzeClassLoop at h
    cases hp : parseFile env st f with
    | error e' =>
      rw [hp] at h
      cases h
      exact Or.inl ⟨f, parseFile_error_shape hp⟩
    | ok v =>
      obtain ⟨u, s1⟩ := v
      cases u
      rw [hp] at h
      simp only at h
      cases hm : mapGet s1.classCache cn with
      | some info => rw [hm] at h; cases h
      | none =>
        rw [hm] at h
        exact ih h

theorem runStateBatch_error_shape {α β : Type} {P : AError → Prop}
    {f : AnalyzerState → α → Except AError (List β × AnalyzerState)}
    (hf : ∀ st a e, f st a = .error e → P e) :
    ∀ {b : List α} {s : AnalyzerState} {e : AError}, runStateBatch f b s = .error e → P e := by
  intro b
  induction b with
  | nil => intro s e h; cases h
  | cons a as ih =>
    intro s e h
    unfold runStateBatch at h
    split at h
    · cases h
      exact hf _ _ _ (by assumption)
    · split at h
      · cases h
        exact ih (by assumption)
      · cases h

theorem runStateBatches_error_shape {α β : Type} {P : AError → Prop}
    {f : AnalyzerState → α → Except AError (List β × AnalyzerState)}
    (hf : ∀ st a e, f st a = .error e → P e) :
    ∀ {bs : List (List α)} {s : AnalyzerState} {e : AError},
      runStateBatches f bs s = .error e → P e := by
  intro bs
  induction bs with
  | nil => intro s e h; cases h
  | cons b bs ih =>
    intro s e h
    unfold runStateBatches at h
    split at h
    · cases h
      exact runStateBatch_error_shape hf (by assumption)
    · split at h
      · cases h
        exact ih (by assumption)
      · cases h

theorem runClassMatches_state (fp : String) (t : SNode) (s : AnalyzerState) :
    (runClassMatches fp t s).astCache = s.astCache ∧
    (runClassMatches fp t s).cacheQueue = s.cacheQueue ∧
    (runClassMatches fp t s).parseCount = s.parseCount ∧
    coreFields (runClassMatches fp t s) = coreFields s := by
  have hfold :
      ∀ (l : List (SNode × String)) (st : AnalyzerState),
        ((l.foldl (fun st m =>
            if m.2 ≠ "" then classCacheInsert st m.2 (extractClassInfo m.1 fp) else st) st).astCache
          = st.astCache ∧
         (l.foldl (fun st m =>
            if m.2 ≠ "" then classCacheInsert st m.2 (extractClassInfo m.1 fp) else st) st).cacheQueue
          = st.cacheQueue ∧
         (l.foldl (fun st m =>
            if m.2 ≠ "" then classCacheInsert st m.2 (extractClassInfo m.1 fp) else st) st).parseCount
          = st.parseCount ∧
         coreFields (l.foldl (fun st m =>
            if m.2 ≠ "" then classCacheInsert st m.2 (extractClassInfo m.1 fp) else st) st)
          = coreFields st) := by
    intro l
    induction l with
    | nil => intro st; exact ⟨rfl, rfl, rfl, rfl⟩
    | cons m l ih =>
      intro st
      simp only [List.foldl_cons]
      have hstep :
          ((if m.2 ≠ "" then classCacheInsert st m.2 (extractClassInfo m.1 fp) else st).astCache
            = st.astCache) ∧
          ((if m.2 ≠ "" then classCacheInsert st m.2 (extractClassInfo m.1 fp) else st).cacheQueue
            = st.cacheQueue) ∧
          ((if m.2 ≠ "" then classCacheInsert st m.2 (extractClassInfo m.1 fp) else st).parseCount
            = st.parseCount) ∧
          (coreFields (if m.2 ≠ "" then classCacheInsert st m.2 (extractClassInfo m.1 fp) else st)
            = coreFields st) := by
        by_cases h : m.2 = ""
        · simp [h]
        · simp [h, classCacheInsert, coreFields]
      obtain ⟨e1, e2, e3, e4⟩ := ih (if m.2 ≠ "" then classCacheInsert st m.2 (extractClassInfo m.1 fp) else st)
      exact ⟨e1.trans hstep.1, e2.trans hstep.2.1, e3.trans hstep.2.2.1, e4.trans hstep.2.2.2⟩
  unfold runClassMatches
  cases hq : mapGet s.queryCache "CLASS" with
  | some q =>
    simp only [hq]
    exact hfold _ s
  | none =>
    simp only [hq]
    have := hfold (queryClassCaptures (createQuery CLASS_PATTERN) t)
      { s with queryCache := mapSet s.queryCache "CLASS" (createQuery CLASS_PATTERN) }
    simpa [coreFields] using this

theorem parseFile_coreFields {env : Env} {s : AnalyzerState} {f : String} {s' : AnalyzerState}
    (h : parseFile env s f = .ok ((), s')) : coreFields s' = coreFields s := by
  unfold parseFile at h
  cases hr : readFile env.fs f with
  | error e => rw [hr] at h; cases h
  | ok content =>
    rw [hr] at h
    cases hm : mapGet s.astCache f with
    | some t =>
      rw [hm] at h
      by_cases he : t.hasError
      · simp only [he, if_true] at h
        cases h
        exact ((runClassMatches_state _ _ _).2.2.2).trans (by rfl)
      · simp only [he, if_false, Bool.false_eq_true] at h
        cases h
        exact (runClassMatches_state _ _ _).2.2.2
    | none =>
      rw [hm] at h
      cases h
      exact ((runClassMatches_state _ _ _).2.2.2).trans (by rfl)

theorem runStateBatch_coreFields {α β : Type}
    {f : AnalyzerState → α → Except AError (List β × AnalyzerState)}
    (hf : ∀ st a v st', f st a = .ok (v, st') → coreFields st' = coreFields st) :
    ∀ {b : List α} {s : AnalyzerState} {out : List β} {s' : AnalyzerState},
      runStateBatch f b s = .ok (out, s') → coreFields s' = coreFields s := by
  intro b
  induction b with
  | nil =>
    intro s out s' h
    cases h
    rfl
  | cons a as ih =>
    intro s out s' h
    unfold runStateBatch at h
    split at h
    · cases h
    · split at h
      · cases h
      · cases h
        exact (ih (by assumption)).trans (hf _ _ _ _ (by assumption))

theorem runStateBatches_coreFields {α β : Type}
    {f : AnalyzerState → α → Except AError (List β × AnalyzerState)}
    (hf : ∀ st a v st', f st a = .ok (v, st') → coreFields st' = coreFields st) :
    ∀ {bs : List (List α)} {s : AnalyzerState} {out : List β} {s' : AnalyzerState},
      runStateBatches f bs s = .ok (out, s') → coreFields s' = coreFields s := by
  intro bs
  induction bs with
  | nil =>
    intro s out s' h
    cases h
    rfl
  | cons b bs ih =>
    intro s out s' h
    unfold runStateBatches at h
    split at h
    · cases h
    · split at h
      · cases h
      · cases h
        exact (ih (by assumption)).trans (runStateBatch_coreFields hf (by assumption))

theorem buildCachePaths_coreFields {env : Env} :
    ∀ {paths : List String} {s : AnalyzerState} {s' : AnalyzerState},
      buildCachePaths env paths s = .ok ((), s') → coreFields s' = coreFields s := by
  intro paths
  induction paths with
  | nil =>
    intro s s' h
    cases h
    rfl
  | cons p ps ih =>
    intro s s' h
    unfold buildCachePaths at h
    have hf : ∀ st (a : String) (v : List Unit) st',
        ((match parseFile env st a with
          | .error e => .error e
          | .ok ((), st1) => .ok ([], st1)) :
            Except AError (List Unit × AnalyzerState)) = .ok (v, st') →
        coreFields st' = coreFields st := by
      intro st a v st' hh
      split at hh
      · cases hh
      · cases hh
        exact parseFile_coreFields (by assumption)
    split at h
    · cases h
    · exact (ih h).trans (runStateBatches_coreFields hf (by assumption))

/-! ## C10: custom-only initialization starves searchCode and analyzeSubsystem -/

/-- C10: with the engine initialized only through `initializeCustomCodebase`
(initialized, no Unreal path, a custom path), `searchCode` always fails with
"No valid search path configured" and `analyzeSubsystem` always fails with
"Unreal Engine path not configured" — both search exclusively under the
Unreal path — while `analyzeClass` and `findReferences` fall back to the
custom path and never raise either of those errors; and
`initializeCustomCodebase` on a fresh analyzer produces exactly such a
state. -/
theorem claim_C10_theorem (s : AnalyzerState) (p : String)
    (h1 : s.initialized = true) (h2 : s.unrealPath = none) (h3 : s.customPath = some p) :
    (∀ env q fp ic, searchCode env s q fp ic = .error .noSearchPath) ∧
    (∀ env sub, analyzeSubsystem env s sub = .error .enginePathNotConfigured) ∧
    AError.message .noSearchPath = "No valid search path configured" ∧
    AError.message .enginePathNotConfigured = "Unreal Engine path not configured" ∧
    (∀ env cn, analyzeClass env s cn ≠ .error .noSearchPath ∧
               analyzeClass env s cn ≠ .error .notInitialized) ∧
    (∀ env idf k, findReferences env s idf k ≠ .error .noSearchPath ∧
                  findReferences env s idf k ≠ .error .notInitialized) ∧
    (∀ env s', initializeCustomCodebase env mkAnalyzer p = .ok ((), s') →
      s'.initialized = true ∧ s'.unrealPath = none ∧ s'.customPath = some p) := by
  refine ⟨?_, ?_, rfl, rfl, ?_, ?_, ?_⟩
  · intro env q fp ic
    simp [searchCode, h1, h2]
  · intro env sub
    simp [analyzeSubsystem, h1, h2]
  · intro env cn
    have hnotboth : ∀ e, (∃ q, e = AError.ioError q) ∨ e = AError.classNotFound cn →
        e ≠ .noSearchPath ∧ e ≠ .notInitialized := by
      rintro e (⟨q, rfl⟩ | rfl) <;> exact ⟨(by intro hh; cases hh), (by intro hh; cases hh)⟩
    unfold analyzeClass
    simp only [h1, h3]
    cases hm : mapGet s.classCache cn with
    | some info => simp
    | none =>
      simp only [firstSome]
      constructor
      · intro hh
        rcases analyzeClassLoop_error_shape hh with ⟨q, hq⟩ | hq
        · cases hq
        · cases hq
      · intro hh
        rcases analyzeClassLoop_error_shape hh with ⟨q, hq⟩ | hq
        · cases hq
        · cases hq
  · intro env idf k
    have hshape : ∀ st (a : String) e, findRefsFile env idf k st a = .error e →
        e ≠ .noSearchPath ∧ e ≠ .notInitialized := by
      intro st a e hh
      have := findRefsFile_error_shape hh
      subst this
      exact ⟨(by intro hh2; cases hh2), (by intro hh2; cases hh2)⟩
    unfold findReferences
    simp only [h1, h3, firstSome]
    constructor
    · intro hh
      exact ((runStateBatches_error_shape hshape hh).1) rfl
    · intro hh
      exact ((runStateBatches_error_shape hshape hh).2) rfl
  · intro env s' hok
    unfold initializeCustomCodebase at hok
    split at hok
    · cases hok
    · unfold buildInitialCache at hok
      simp only at hok
      have := buildCachePaths_coreFields hok
      have hcf : coreFields s' = (true, none, some p) := by
        rw [this]
        rfl
      unfold coreFields at hcf
      exact ⟨congrArg Prod.fst hcf, congrArg (fun t => t.2.1) hcf, congrArg (fun t => t.2.2) hcf⟩

theorem claim_C10_witness :
    searchCode c10Env c10State "x" "*.h" true = .error .noSearchPath ∧
    analyzeSubsystem c10Env c10State "Rendering" = .error .enginePathNotConfigured ∧
    analyzeClass c10Env c10State "X" ≠ .error .noSearchPath ∧
    findReferences c10Env c10State "X" none ≠ .error .noSearchPath := by
  have h := claim_C10_theorem c10State "/p" rfl rfl rfl
  exact ⟨h.1 c10Env "x" "*.h" true, h.2.1 c10Env "Rendering",
    (h.2.2.2.2.1 c10Env "X").1, (h.2.2.2.2.2.1 c10Env "X" none).1⟩

/-! ## Search membership lemmas -/

theorem mem_searchLinesAux {q : String} {inc : Bool} {file : String} {all : List String} :
    ∀ {rest : List String} {i : Nat} {r : CodeReference},
      (r ∈ searchLinesAux q inc file all i rest ↔
        ∃ j l, rest.get? j = some l ∧
          ((inc || !isCommentLine l) && regexTest q l) = true ∧
          r = { file := file, line := i + j + 1, column := colOf q l,
                context := contextAt all (i + j) }) := by
  intro rest
  induction rest with
  | nil =>
    intro i r
    simp [searchLinesAux]
  | cons l rest ih =>
    intro i r
    simp only [searchLinesAux, List.mem_append]
    constructor
    · rintro (hr | hr)
      · by_cases hc : ((inc || !isCommentLine l) && regexTest q l) = true
        · rw [if_pos hc] at hr
          simp only [List.mem_singleton] at hr
          exact ⟨0, l, rfl, hc, by simpa using hr⟩
        · rw [if_neg hc] at hr
          simp at hr
      · obtain ⟨j, l', hget, hcnd, hre⟩ := ih.mp hr
        refine ⟨j + 1, l', by simpa using hget, hcnd, ?_⟩
        rw [hre]
        have harith : i + 1 + j = i + j + 1 := Nat.add_right_comm i 1 j
        have harith2 : i + (j + 1) = i + j + 1 := by omega
        rw [harith, harith2]
    · rintro ⟨j, l', hget, hcnd, hre⟩
      cases j with
      | zero =>
        simp only [List.get?_cons_zero, Option.some.injEq] at hget
        subst hget
        left
        rw [if_pos hcnd]
        simp only [List.mem_singleton]
        simpa using hre
      | succ j =>
        right
        apply ih.mpr
        refine ⟨j, l', by simpa using hget, hcnd, ?_⟩
        rw [hre]
        have harith : i + 1 + j = i + j + 1 := Nat.add_right_comm i 1 j
        have harith2 : i + (j + 1) = i + j + 1 := by omega
        rw [harith, harith2]

theorem batchAll_ok_mem {α β : Type} {g : α → Except AError (List β)} :
    ∀ {b : List α} {out : List β}, batchAll g b = .ok out →
      ∀ r, (r ∈ out ↔ ∃ a ∈ b, ∃ v, g a = .ok v ∧ r ∈ v) := by
  intro b
  induction b with
  | nil =>
    intro out h r
    cases h
    simp
  | cons a as ih =>
    intro out h r
    unfold batchAll at h
    cases hga : g a with
    | error e => rw [hga] at h; cases h
    | ok rs =>
      rw [hga] at h
      cases hrest : batchAll g as with
      | error e => rw [hrest] at h; cases h
      | ok rest =>
        rw [hrest] at h
        cases h
        simp only [List.mem_append, List.mem_cons]
        constructor
        · rintro (hr | hr)
          · exact ⟨a, Or.inl rfl, rs, hga, hr⟩
          · obtain ⟨a', ha', v, hv, hrv⟩ := (ih hrest r).mp hr
            exact ⟨a', Or.inr ha', v, hv, hrv⟩
        · rintro ⟨a', ha', v, hv, hrv⟩
          rcases ha' with rfl | ha'
          · rw [hga] at hv
            cases hv
            exact Or.inl hrv
          · exact Or.inr ((ih hrest r).mpr ⟨a', ha', v, hv, hrv⟩)

theorem runBatches_ok_mem {α β : Type} {g : α → Except AError (List β)} :
    ∀ {bs : List (List α)} {out : List β}, runBatches g bs = .ok out →
      ∀ r, (r ∈ out ↔ ∃ b ∈ bs, ∃ a ∈ b, ∃ v, g a = .ok v ∧ r ∈ v) := by
  intro bs
  induction bs with
  | nil =>
    intro out h r
    cases h
    simp
  | cons b bs ih =>
    intro out h r
    unfold runBatches at h
    cases hb : batchAll g b with
    | error e => rw [hb] at h; cases h
    | ok rs =>
      rw [hb] at h
      cases hrest : runBatches g bs with
      | error e => rw [hrest] at h; cases h
      | ok rest =>
        rw [hrest] at h
        cases h
        simp only [List.mem_append, List.mem_cons]
        constructor
        · rintro (hr | hr)
          · obtain ⟨a, ha, v, hv, hrv⟩ := (batchAll_ok_mem hb r).mp hr
            exact ⟨b, Or.inl rfl, a, ha, v, hv, hrv⟩
          · obtain ⟨b', hb', a, ha, v, hv, hrv⟩ := (ih hrest r).mp hr
            exact ⟨b', Or.inr hb', a, ha, v, hv, hrv⟩
        · rintro ⟨b', hb', a, ha, v, hv, hrv⟩
          rcases hb' with rfl | hb'
          · exact Or.inl ((batchAll_ok_mem hb r).mpr ⟨a, ha, v, hv, hrv⟩)
          · exact Or.inr ((ih hrest r).mpr ⟨b', hb', a, ha, v, hv, hrv⟩)

theorem mem_chunks_iff {α : Type} {a : α} {l : List α} (n : Nat) :
    (∃ b ∈ chunks n l, a ∈ b) ↔ a ∈ l := by
  constructor
  · rintro ⟨b, hb, ha⟩
    have hfl : (chunks n l).flatten = l := chunksAux_flatten n l.length l le_rfl
    rw [← hfl]
    exact List.mem_flatten.mpr ⟨b, hb, ha⟩
  · exact mem_chunks n

theorem colOf_pos_iff (q l : String) : 1 ≤ colOf q l ↔ (strIdxOf l q).isSome = true := by
  unfold colOf
  cases h : strIdxOf l q <;> simp

/-! ## C7: comment filtering in searchCode -/

/-- C7: with `includeComments = false`, `searchCode` scans each globbed,
readable file line by line (first conjunct: its successful output is exactly
the union of the per-file `searchLines` scans), and a line number is emitted
for a file exactly when that line is not comment-leading (its trimmed form
does not start with `//` or `/*`) and the pattern matches it (second
conjunct) — so whole comment-leading lines are excluded while matching lines
with code before an inline comment are included. -/
theorem claim_C7_theorem :
    (∀ (env : Env) (s : AnalyzerState) (root q fp : String) (out : List CodeReference),
      s.initialized = true → s.unrealPath = some root →
      searchCode env s q fp false = .ok out →
      ∀ r, (r ∈ out ↔ ∃ f ∈ globSync ("**/" ++ fp) root env.fs, ∃ c,
        mapGet env.fs.contents f = some c ∧ r ∈ searchLines q false f (splitLines c))) ∧
    (∀ (q f : String) (lines : List String) (j : Nat),
      (∃ r ∈ searchLines q false f lines, r.line = j + 1) ↔
      (∃ l, lines.get? j = some l ∧ isCommentLine l = false ∧ regexTest q l = true)) := by
  constructor
  · intro env s root q fp out hinit hroot hok r
    rw [searchCode] at hok
    simp only [hinit, hroot] at hok
    rw [runBatches_ok_mem hok r]
    constructor
    · rintro ⟨b, hb, a, ha, v, hv, hrv⟩
      have hmem : a ∈ globSync ("**/" ++ fp) root env.fs := (mem_chunks_iff 20).mp ⟨b, hb, ha⟩
      cases hread : readFile env.fs a with
      | error e => rw [hread] at hv; cases hv
      | ok c =>
        rw [hread] at hv
        cases hv
        have hc : mapGet env.fs.contents a = some c := by
          unfold readFile at hread
          cases hm : mapGet env.fs.contents a with
          | some c' => rw [hm] at hread; cases hread; rfl
          | none => rw [hm] at hread; cases hread
        exact ⟨a, hmem, c, hc, hrv⟩
    · rintro ⟨f, hf, c, hc, hrv⟩
      obtain ⟨b, hb, ha⟩ := (mem_chunks_iff 20).mpr hf
      refine ⟨b, hb, f, ha, searchLines q false f (splitLines c), ?_, hrv⟩
      simp [readFile, hc]
  · intro q f lines j
    constructor
    · rintro ⟨r, hr, hline⟩
      obtain ⟨j', l, hget, hcnd, hre⟩ := mem_searchLinesAux.mp hr
      have hjj : j' = j := by
        rw [hre] at hline
        simp at hline
        omega
      subst hjj
      refine ⟨l, hget, ?_, ?_⟩
      · simp only [Bool.false_or, Bool.and_eq_true, Bool.not_eq_true'] at hcnd
        exact hcnd.1
      · simp only [Bool.false_or, Bool.and_eq_true] at hcnd
        exact hcnd.2
    · rintro ⟨l, hget, hcm, hre⟩
      refine ⟨{ file := f, line := 0 + j + 1, column := colOf q l,
                context := contextAt lines (0 + j) }, ?_, by simp⟩
      apply mem_searchLinesAux.mpr
      exact ⟨j, l, hget, by simp [hcm, hre], rfl⟩

def c7Lines : List String := ["// foo bar", "int x = 1; // foo"]

theorem claim_C7_witness :
    (¬ ∃ r ∈ searchLines "foo" false "f" c7Lines, r.line = 0 + 1) ∧
    (∃ r ∈ searchLines "foo" false "f" c7Lines, r.line = 1 + 1) ∧
    (∃ f ∈ globSync "**/*.\x7bh,cpp\x7d" "/ue" c9Env.fs, ∃ c,
      mapGet c9Env.fs.contents f = some c ∧
      ({ file := "/ue/a.h", line := 1, column := 1, context := "foo" } : CodeReference) ∈
        searchLines "foo" false f (splitLines c)) := by
  refine ⟨?_, ?_, ?_⟩
  · intro h
    obtain ⟨l, hget, hcm, _⟩ := (claim_C7_theorem.2 "foo" "f" c7Lines 0).mp h
    have hl : l = "// foo bar" := by
      simpa [c7Lines] using hget.symm
    rw [hl] at hcm
    exact absurd hcm (by decide)
  · exact (claim_C7_theorem.2 "foo" "f" c7Lines 1).mpr
      ⟨"int x = 1; // foo", rfl, by decide, by decide⟩
  · have hok : searchCode c9Env c4State "foo" "*.\x7bh,cpp\x7d" false =
        .ok [{ file := "/ue/a.h", line := 1, column := 1, context := "foo" }] := rfl
    exact (claim_C7_theorem.1 c9Env c4State "/ue" "foo" "*.\x7bh,cpp\x7d" _ rfl rfl hok
      { file := "/ue/a.h", line := 1, column := 1, context := "foo" }).mp (by simp)

/-! ## C9: line and column of emitted references -/

theorem runStateBatches_ok_mem {α β : Type}
    {f : AnalyzerState → α → Except AError (List β × AnalyzerState)} :
    ∀ {bs : List (List α)} {s : AnalyzerState} {out : List β} {s' : AnalyzerState} {r : β},
      runStateBatches f bs s = .ok (out, s') → r ∈ out →
      ∃ b ∈ bs, ∃ a ∈ b, ∃ st v st2, f st a = .ok (v, st2) ∧ r ∈ v := by
  have hbatch : ∀ {b : List α} {s : AnalyzerState} {out : List β} {s' : AnalyzerState} {r : β},
      runStateBatch f b s = .ok (out, s') → r ∈ out →
      ∃ a ∈ b, ∃ st v st2, f st a = .ok (v, st2) ∧ r ∈ v := by
    intro b
    induction b with
    | nil =>
      intro s out s' r h hr
      cases h
      simp at hr
    | cons a as ih =>
      intro s out s' r h hr
      unfold runStateBatch at h
      split at h
      next e1 heq1 => cases h
      next rs1 st1 heq1 =>
        split at h
        next e2 heq2 => cases h
        next rs2 st2 heq2 =>
          cases h
          rcases List.mem_append.mp hr with hr | hr
          · exact ⟨a, List.mem_cons_self a as, s, rs1, st1, heq1, hr⟩
          · obtain ⟨a', ha', st, v, stx, hv, hrv⟩ := ih heq2 hr
            exact ⟨a', List.mem_cons_of_mem a ha', st, v, stx, hv, hrv⟩
  intro bs
  induction bs with
  | nil =>
    intro s out s' r h hr
    cases h
    simp at hr
  | cons b bs ih =>
    intro s out s' r h hr
    unfold runStateBatches at h
    split at h
    next e1 heq1 => cases h
    next rs1 st1 heq1 =>
      split at h
      next e2 heq2 => cases h
      next rs2 st2 heq2 =>
        cases h
        rcases List.mem_append.mp hr with hr | hr
        · obtain ⟨a, ha, st, v, stx, hv, hrv⟩ := hbatch heq1 hr
          exact ⟨b, List.mem_cons_self b bs, a, ha, st, v, stx, hv, hrv⟩
        · obtain ⟨b', hb', a, ha, st, v, stx, hv, hrv⟩ := ih heq2 hr
          exact ⟨b', List.mem_cons_of_mem b hb', a, ha, st, v, stx, hv, hrv⟩

theorem findRefsFile_ok_shape {env : Env} {idf : String} {k : Option RefKind}
    {st : AnalyzerState} {f : String} {v : List CodeReference} {st2 : AnalyzerState}
    (h : findRefsFile env idf k st f = .ok (v, st2)) :
    ∀ r ∈ v, 1 ≤ r.line ∧ 1 ≤ r.column := by
  unfold findRefsFile at h
  split at h
  · cases h
  · cases h
    intro r hr
    obtain ⟨node, _, hre⟩ := List.mem_map.mp hr
    rw [← hre]
    exact ⟨Nat.le_add_left 1 node.row, Nat.le_add_left 1 node.col⟩

/-- C9, amended: every `CodeReference` emitted by `searchCode` and
`findReferences` has a 1-based line (`line ≥ 1`); `findReferences` columns are
node positions plus one, hence always ≥ 1; `searchCode` computes the column
as the first index of the literal pattern in the matching line plus one, so
the column is ≥ 1 exactly when the literal pattern occurs in that line — and
is 0 when the case-insensitive regex matched without a literal (case-exact)
occurrence. -/
theorem claim_C9_theorem :
    (∀ (env : Env) (s : AnalyzerState) (q fp : String) (ic : Bool) (out : List CodeReference),
      searchCode env s q fp ic = .ok out →
      ∀ r ∈ out, 1 ≤ r.line ∧ ∃ c l,
        mapGet env.fs.contents r.file = some c ∧
        (splitLines c).get? (r.line - 1) = some l ∧
        r.column = colOf q l ∧ (1 ≤ r.column ↔ (strIdxOf l q).isSome = true)) ∧
    (∀ (env : Env) (s : AnalyzerState) (idf : String) (k : Option RefKind)
      (out : List CodeReference) (s' : AnalyzerState),
      findReferences env s idf k = .ok (out, s') →
      ∀ r ∈ out, 1 ≤ r.line ∧ 1 ≤ r.column) := by
  constructor
  · intro env s q fp ic out hok r hr
    rw [searchCode] at hok
    by_cases hinit : s.initialized = false
    · rw [if_pos hinit] at hok
      cases hok
    · rw [if_neg hinit] at hok
      cases hroot : s.unrealPath with
      | none => rw [hroot] at hok; cases hok
      | some root =>
        rw [hroot] at hok
        obtain ⟨b, hb, a, ha, v, hv, hrv⟩ := (runBatches_ok_mem hok r).mp hr
        cases hread : readFile env.fs a with
        | error e => rw [hread] at hv; cases hv
        | ok c =>
          rw [hread] at hv
          cases hv
          have hc : mapGet env.fs.contents a = some c := by
            unfold readFile at hread
            cases hm : mapGet env.fs.contents a with
            | some c' => rw [hm] at hread; cases hread; rfl
            | none => rw [hm] at hread; cases hread
          obtain ⟨j, l, hget, hcnd, hre⟩ := mem_searchLinesAux.mp hrv
          subst hre
          simp only
          refine ⟨by omega, c, l, hc, ?_, rfl, colOf_pos_iff q l⟩
          have : 0 + j + 1 - 1 = j := by omega
          rw [this]
          exact hget
  · intro env s idf k out s' hok r hr
    rw [findReferences] at hok
    by_cases hinit : s.initialized = false
    · rw [if_pos hinit] at hok
      cases hok
    · rw [if_neg hinit] at hok
      cases hsp : firstSome s.customPath s.unrealPath with
      | none => rw [hsp] at hok; cases hok
      | some sp =>
        rw [hsp] at hok
        obtain ⟨b, hb, a, ha, st, v, st2, hv, hrv⟩ := runStateBatches_ok_mem hok hr
        exact findRefsFile_ok_shape hv r hrv

/-- C9 counterexample: `searchCode` with the pattern `FOO` over a file whose
single line is `foo` emits a reference with column 0 (the case-insensitive
regex matches but the case-sensitive `indexOf` returns `-1`), violating
"column ≥ 1 for every emitted result". -/
theorem claim_C9_counterexample :
    searchCode c9Env c4State "FOO" "*.\x7bh,cpp\x7d" true = .ok [c9Ref] ∧ c9Ref.column = 0 := by
  exact ⟨rfl, rfl⟩

theorem claim_C9_witness :
    (1 ≤ (1 : Nat) ∧ ∃ c l,
      mapGet c9Env.fs.contents "/ue/a.h" = some c ∧
      (splitLines c).get? (1 - 1) = some l ∧
      (1 : Nat) = colOf "foo" l ∧ (1 ≤ (1 : Nat) ↔ (strIdxOf l "foo").isSome = true)) := by
  have h := claim_C9_theorem.1 c9Env c4State "foo" "*.\x7bh,cpp\x7d" true
    [{ file := "/ue/a.h", line := 1, column := 1, context := "foo" }] rfl
    { file := "/ue/a.h", line := 1, column := 1, context := "foo" } (by simp)
  exact h

/-! ## C6: re-parse discipline -/

theorem manageCache_get_self {V : Type} (store : List (String × V)) (queue : List String)
    (k : String) (v : V) : mapGet (manageCache store queue k v).1 k = some v := by
  unfold manageCache
  exact mapGet_mapSet_self _ _ _

/-- C6, amended: `parseFile` re-parses a file exactly when the tree is absent
from the Tree Cache or the cached tree reports a structural error (the parse
counter increases by one exactly in that case), and a second identical
`parseFile` scan of a file whose latest tree is error-free does not invoke
the parser again; but `findReferences` reuses a cached tree without any error
check (no parser invocation even for an error-reporting cached tree). -/
theorem claim_C6_theorem :
    (∀ (env : Env) (s : AnalyzerState) (f : String) (s' : AnalyzerState),
      parseFile env s f = .ok ((), s') →
      s'.parseCount = s.parseCount + (if reparseNeeded s f then 1 else 0)) ∧
    (∀ (env : Env) (s : AnalyzerState) (f content : String) (s1 : AnalyzerState),
      readFile env.fs f = .ok content →
      (env.parse content).hasError = false →
      parseFile env s f = .ok ((), s1) →
      ∃ s2, parseFile env s1 f = .ok ((), s2) ∧ s2.parseCount = s1.parseCount) ∧
    (∀ (env : Env) (idf : String) (k : Option RefKind) (st : AnalyzerState)
      (f : String) (t : SNode) (content : String),
      mapGet st.astCache f = some t →
      mapGet env.fs.contents f = some content →
      ∃ refs st2, findRefsFile env idf k st f = .ok (refs, st2) ∧
        st2.parseCount = st.parseCount) := by
  refine ⟨?_, ?_, ?_⟩
  · intro env s f s' h
    unfold parseFile at h
    split at h
    next e heq => cases h
    next content heq =>
      split at h
      next t heq2 =>
        split at h
        next he =>
          cases h
          rw [(runClassMatches_state _ _ _).2.2.1]
          simp [reparseNeeded, heq2, he]
        next he =>
          cases h
          rw [(runClassMatches_state _ _ _).2.2.1]
          have hef : t.hasError = false := by simpa using he
          simp [reparseNeeded, heq2, hef]
      next heq2 =>
        cases h
        rw [(runClassMatches_state _ _ _).2.2.1]
        simp [reparseNeeded, heq2]
  · intro env s f content s1 hread hclean h
    have hcache : mapGet s1.astCache f = some (env.parse content) ∨
        (∃ t, mapGet s1.astCache f = some t ∧ t.hasError = false) := by
      unfold parseFile at h
      split at h
      next e heq =>
        cases h
      next content2 heq =>
        have hc2 : content2 = content := by
          rw [hread] at heq
          cases heq
          rfl
        subst hc2
        split at h
        next t heq2 =>
          split at h
          next he =>
            cases h
            left
            rw [(runClassMatches_state _ _ _).1]
            exact manageCache_get_self _ _ _ _
          next he =>
            cases h
            right
            refine ⟨t, ?_, by simpa using he⟩
            rw [(runClassMatches_state _ _ _).1]
            exact heq2
        next heq2 =>
          cases h
          left
          rw [(runClassMatches_state _ _ _).1]
          exact manageCache_get_self _ _ _ _
    have hnoerr : ∃ t, mapGet s1.astCache f = some t ∧ t.hasError = false := by
      rcases hcache with hc | hc
      · exact ⟨env.parse content, hc, hclean⟩
      · exact hc
    obtain ⟨t, hget, hterr⟩ := hnoerr
    refine ⟨runClassMatches f t s1, ?_, (runClassMatches_state _ _ _).2.2.1⟩
    unfold parseFile
    rw [hread, hget]
    simp [hterr]
  · intro env idf k st f t content hget hcontent
    unfold findRefsFile
    rw [show readFile env.fs f = .ok content from by simp [readFile, hcontent]]
    simp only [hget]
    cases hq : mapGet st.queryCache (kindStr k ++ "-" ++ idf) with
    | some q =>
      simp only [hq]
      exact ⟨_, _, rfl, rfl⟩
    | none =>
      simp only [hq]
      exact ⟨_, _, rfl, rfl⟩

/-- C6 counterexample: `analyzeSubsystem` invokes the parser even though the
file's cached tree is present and error-free — on a state whose Tree Cache
already holds a clean tree for the single header, one `analyzeSubsystem` run
still increments the parse count (the claim requires no parser invocation for
a cached error-free tree). -/
theorem claim_C6_counterexample :
    reparseNeeded c6State c6File = false ∧
    mapGet c6State.astCache c6File = some cleanTree ∧
    cleanTree.hasError = false ∧
    parseCountAfterSubsystem c6Env c6State "Rendering" = some (c6State.parseCount + 1) := by
  exact ⟨rfl, rfl, rfl, rfl⟩

def parsedOnceC6 : AnalyzerState :=
  ((parseFile c3Env mkAnalyzer "/p/A.h").toOption.getD ((), mkAnalyzer)).2

theorem claim_C6_witness :
    parsedOnceC6.parseCount =
      mkAnalyzer.parseCount + (if reparseNeeded mkAnalyzer "/p/A.h" then 1 else 0) ∧
    (∃ s2, parseFile c3Env parsedOnceC6 "/p/A.h" = .ok ((), s2) ∧
      s2.parseCount = parsedOnceC6.parseCount) ∧
    (∃ refs st2, findRefsFile c6Env "x" none c6State c6File = .ok (refs, st2) ∧
      st2.parseCount = c6State.parseCount) := by
  have h1 : parseFile c3Env mkAnalyzer "/p/A.h" = .ok ((), parsedOnceC6) := rfl
  refine ⟨claim_C6_theorem.1 c3Env mkAnalyzer "/p/A.h" parsedOnceC6 h1, ?_, ?_⟩
  · exact claim_C6_theorem.2.1 c3Env mkAnalyzer "/p/A.h" c3Header parsedOnceC6 rfl rfl h1
  · exact claim_C6_theorem.2.2 c6Env "x" none c6State c6File cleanTree "x" rfl rfl

/-! ## C8: relevance scoring, ordering, truncation -/

theorem isPrefixOf_append_sep {t : List Char} (hsp : ' ' ∉ t) :
    ∀ (u b : List Char), t.isPrefixOf (u ++ ' ' :: b) = t.isPrefixOf u := by
  induction t with
  | nil => intro u b; simp [List.isPrefixOf]
  | cons x t ih =>
    intro u b
    have hx : x ≠ ' ' := fun hh => hsp (hh ▸ List.mem_cons_self x t)
    cases u with
    | nil =>
      simp only [List.nil_append, List.isPrefixOf]
      have : (x == ' ') = false := by
        simp [hx]
      simp [this]
    | cons y u =>
      simp only [List.cons_append, List.isPrefixOf, List.append_eq]
      rw [ih (fun hh => hsp (List.mem_cons_of_mem x hh)) u b]

theorem containsC_append_sep {t : List Char} (hsp : ' ' ∉ t) :
    ∀ (a b : List Char), containsC t (a ++ ' ' :: b) = (containsC t a || containsC t b) := by
  intro a
  induction a with
  | nil =>
    intro b
    simp only [List.nil_append, containsC]
    cases t with
    | nil => simp [List.isPrefixOf, containsC]
    | cons x t =>
      have hx : x ≠ ' ' := fun hh => hsp (hh ▸ List.mem_cons_self x t)
      have : ((x :: t).isPrefixOf (' ' :: b)) = false := by
        simp only [List.isPrefixOf]
        simp [hx]
      simp [this, containsC]
  | cons c a ih =>
    intro b
    simp only [List.cons_append, containsC, List.append_eq]
    rw [show c :: (a ++ ' ' :: b) = (c :: a) ++ ' ' :: b from rfl,
      isPrefixOf_append_sep hsp (c :: a) b, ih b]
    cases hp : t.isPrefixOf (c :: a) <;> simp

theorem strLower_append (a b : String) : strLower (a ++ b) = strLower a ++ strLower b := by
  unfold strLower
  apply congrArg String.mk
  simp [String.data_append]

theorem strLower_joinSep_space : ∀ (fs : List String),
    strLower (joinSep " " fs) = joinSep " " (fs.map strLower) := by
  intro fs
  induction fs with
  | nil => rfl
  | cons f fs ih =>
    cases fs with
    | nil => rfl
    | cons g rest =>
      simp only [joinSep, List.map_cons]
      rw [strLower_append, strLower_append]
      rw [show strLower " " = " " from rfl]
      simp only [List.map_cons] at ih
      rw [ih]

theorem strIncludes_joinSep_space {t : String} (hsp : ' ' ∉ t.data) :
    ∀ (fs : List String), fs ≠ [] →
      strIncludes (joinSep " " fs) t = fs.any (fun f => strIncludes f t) := by
  intro fs
  induction fs with
  | nil => intro h; exact absurd rfl h
  | cons f fs ih =>
    intro _
    cases fs with
    | nil => simp [joinSep, List.any_cons]
    | cons g rest =>
      simp only [joinSep, strIncludes, List.any_cons]
      rw [String.data_append, String.data_append]
      rw [show (" " : String).data = [' '] from rfl]
      rw [List.append_assoc, show ([' '] ++ (joinSep " " (g :: rest)).data) =
        ' ' :: (joinSep " " (g :: rest)).data from rfl]
      rw [containsC_append_sep hsp]
      have := ih (by simp)
      simp only [strIncludes, List.any_cons] at this
      rw [this]

theorem foldl_add_shape (w : String → Nat) (f : Nat → String → Nat)
    (hf : ∀ s t, f s t = s + w t) :
    ∀ (terms : List String) (init : Nat), terms.foldl f init = init + (terms.map w).sum := by
  intro terms
  induction terms with
  | nil => intro init; simp
  | cons t ts ih =>
    intro init
    simp only [List.foldl_cons, List.map_cons, List.sum_cons]
    rw [hf, ih]
    omega

theorem mem_insertDesc {z x : ApiQueryResult} :
    ∀ {l : List ApiQueryResult}, z ∈ insertDesc x l ↔ z = x ∨ z ∈ l := by
  intro l
  induction l with
  | nil => simp [insertDesc]
  | cons y ys ih =>
    unfold insertDesc
    by_cases h : x.relevance < y.relevance
    · rw [if_pos h]
      simp only [List.mem_cons, ih]
      tauto
    · rw [if_neg h]
      simp only [List.mem_cons]

theorem pairwise_insertDesc {x : ApiQueryResult} :
    ∀ {l : List ApiQueryResult},
      List.Pairwise (fun a b => b.relevance ≤ a.relevance) l →
      List.Pairwise (fun a b => b.relevance ≤ a.relevance) (insertDesc x l) := by
  intro l
  induction l with
  | nil => intro _; simp [insertDesc]
  | cons y ys ih =>
    intro h
    rw [List.pairwise_cons] at h
    unfold insertDesc
    by_cases hlt : x.relevance < y.relevance
    · rw [if_pos hlt]
      rw [List.pairwise_cons]
      constructor
      · intro z hz
        rcases mem_insertDesc.mp hz with rfl | hz
        · exact Nat.le_of_lt hlt
        · exact h.1 z hz
      · exact ih h.2
    · rw [if_neg hlt]
      rw [List.pairwise_cons]
      constructor
      · intro z hz
        rcases List.mem_cons.mp hz with rfl | hz
        · exact Nat.le_of_not_lt hlt
        · exact Nat.le_trans (h.1 z hz) (Nat.le_of_not_lt hlt)
      · exact List.pairwise_cons.mpr h

theorem pairwise_sortByRelevance (l : List ApiQueryResult) :
    List.Pairwise (fun a b => b.relevance ≤ a.relevance) (sortByRelevance l) := by
  induction l with
  | nil => simp [sortByRelevance]
  | cons x xs ih => exact pairwise_insertDesc ih

theorem mem_sortByRelevance {z : ApiQueryResult} :
    ∀ {l : List ApiQueryResult}, z ∈ sortByRelevance l ↔ z ∈ l := by
  intro l
  induction l with
  | nil => simp [sortByRelevance]
  | cons x xs ih =>
    show z ∈ insertDesc x (sortByRelevance xs) ↔ _
    rw [mem_insertDesc, ih]
    simp [List.mem_cons, eq_comm]

/-- The per-result predicate established by the filter and relevance guards
of `queryApiReference`. -/
def apiResPred (opts : ApiQueryOptions) (r : ApiQueryResult) : Prop :=
  0 < r.relevance ∧
    (∀ c, opts.category = some c → r.reference.category = c) ∧
    (∀ m, opts.module = some m → r.reference.module = m)

theorem apiQueryStep_fold_pred (opts : ApiQueryOptions) (terms : List String) :
    ∀ (entries : List (String × ClassInfo)) (acc : List ApiQueryResult × AnalyzerState),
      (∀ r ∈ acc.1, apiResPred opts r) →
      ∀ r ∈ (entries.foldl (apiQueryStep opts terms) acc).1, apiResPred opts r := by
  intro entries
  induction entries with
  | nil => intro acc hacc r hr; exact hacc r hr
  | cons entry entries ih =>
    intro acc hacc r hr
    simp only [List.foldl_cons] at hr
    refine ih (apiQueryStep opts terms acc entry) ?_ r hr
    intro r' hr'
    simp only [apiQueryStep] at hr'
    split at hr'
    · exact hacc r' hr'
    · split at hr'
      · exact hacc r' hr'
      · split at hr'
        next hrel =>
          rcases List.mem_append.mp hr' with hr' | hr'
          · exact hacc r' hr'
          · simp only [List.mem_singleton] at hr'
            subst hr'
            rename_i hcat hmod
            refine ⟨hrel, ?_, ?_⟩
            · intro c hc
              unfold categoryMismatch at hcat
              rw [hc] at hcat
              simpa using hcat
            · intro m hm
              unfold moduleMismatch at hmod
              rw [hm] at hmod
              simpa using hmod
        · exact hacc r' hr'

def c8AARef : ApiReference := (getOrCreateApiReference c8State aactorInfo).1

/-- C8: `calculateApiRelevance` computes exactly the spec's formula — per
whitespace token +10 for a class-name substring match, +5 for category, +5
for module, +2 for a substring match in any field (first conjunct, for the
space-free tokens the whitespace tokenizer produces); every successful
`queryApiReference` result list is sorted descending by relevance, truncated
to `maxResults || 10`, and every entry passed the optional category/module
filters with positive relevance (second conjunct); and on the two cached
classes `AActor` and `UActorComponent`, `queryApiReference("actor",
{maxResults: 1})` returns exactly `AActor` (third conjunct). -/
theorem claim_C8_theorem :
    (∀ (apiRef : ApiReference) (terms : List String), (∀ t ∈ terms, ' ' ∉ t.data) →
      calculateApiRelevance apiRef terms = specApiRelevance apiRef terms) ∧
    (∀ (s : AnalyzerState) (q : String) (opts : ApiQueryOptions)
      (res : List ApiQueryResult) (s' : AnalyzerState),
      queryApiReference s q opts = .ok (res, s') →
      List.Pairwise (fun a b => b.relevance ≤ a.relevance) res ∧
      res.length ≤ (match opts.maxResults with | some m => if m = 0 then 10 else m | none => 10) ∧
      ∀ r ∈ res, 0 < r.relevance ∧
        (∀ c, opts.category = some c → r.reference.category = c) ∧
        (∀ m, opts.module = some m → r.reference.module = m)) ∧
    apiResultNames (queryApiReference c8State "actor" opts8) = some ["AActor"] := by
  refine ⟨?_, ?_, ?_⟩
  · intro apiRef terms htsp
    simp only [calculateApiRelevance, specApiRelevance]
    rw [foldl_add_shape (fun term =>
      (if strIncludes (strLower apiRef.className) term then 10 else 0) +
      ((if strIncludes (strLower apiRef.category) term then 5 else 0) +
      ((if strIncludes (strLower apiRef.module) term then 5 else 0) +
      (if strIncludes (strLower (joinSep " "
        ([apiRef.className, apiRef.description, apiRef.category, apiRef.module] ++
          apiRef.relatedClasses ++ apiRef.examples ++ apiRef.remarks))) term then 2 else 0))))
      (fun score term => score +
        (if strIncludes (strLower apiRef.className) term then 10 else 0) +
        (if strIncludes (strLower apiRef.category) term then 5 else 0) +
        (if strIncludes (strLower apiRef.module) term then 5 else 0) +
        (if strIncludes (strLower (joinSep " "
          ([apiRef.className, apiRef.description, apiRef.category, apiRef.module] ++
            apiRef.relatedClasses ++ apiRef.examples ++ apiRef.remarks))) term then 2 else 0))
      (fun sc t => by simp [Nat.add_assoc]) terms 0]
    rw [Nat.zero_add]
    apply congrArg List.sum
    apply List.map_congr_left
    intro t ht
    have hsp := htsp t ht
    have hne : ([apiRef.className, apiRef.description, apiRef.category, apiRef.module] ++
        apiRef.relatedClasses ++ apiRef.examples ++ apiRef.remarks) ≠ [] := by
      simp
    have hcond :
        strIncludes (strLower (joinSep " "
          ([apiRef.className, apiRef.description, apiRef.category, apiRef.module] ++
            apiRef.relatedClasses ++ apiRef.examples ++ apiRef.remarks))) t =
        (apiRefFields apiRef).any (fun f => strIncludes (strLower f) t) := by
      rw [strLower_joinSep_space, strIncludes_joinSep_space hsp _ (by simp)]
      rw [List.any_map]
      rfl
    rw [hcond]
    simp [Nat.add_assoc]
  · intro s q opts res s' hok
    simp only [queryApiReference] at hok
    by_cases hinit : s.initialized = false
    · rw [if_pos hinit] at hok
      cases hok
    · rw [if_neg hinit] at hok
      injection hok with hok2
      rw [Prod.ext_iff] at hok2
      obtain ⟨h1, h2⟩ := hok2
      subst h1
      refine ⟨?_, ?_, ?_⟩
      · exact List.Pairwise.sublist (List.take_sublist _ _) (pairwise_sortByRelevance _)
      · exact List.length_take_le _ _
      · intro r hr
        have hr1 := List.mem_of_mem_take hr
        have hr2 := mem_sortByRelevance.mp hr1
        exact apiQueryStep_fold_pred opts _ s.classCache ([], s)
          (by intro r0 h0; simp at h0) r hr2
  · rfl

theorem claim_C8_witness :
    calculateApiRelevance c8AARef ["actor"] = specApiRelevance c8AARef ["actor"] ∧
    List.Pairwise (fun a b => b.relevance ≤ a.relevance) c8resPair.1 ∧
    c8resPair.1.length ≤ 1 := by
  have hok : queryApiReference c8State "actor" opts8 = .ok (c8resPair.1, c8resPair.2) := rfl
  have h := claim_C8_theorem.2.1 c8State "actor" opts8 c8resPair.1 c8resPair.2 hok
  exact ⟨claim_C8_theorem.1 c8AARef ["actor"] (by decide), h.1, h.2.1⟩
